import Mathlib

/-!
Shallow embedding of the GEEDaR incremental synchronization engine
(`databaseUpdate`, `reduction` and their helpers in `GEEDaR.py`).

Calendar dates are modelled as natural numbers (day indices); the provider
(Google Earth Engine) is modelled as a deterministic collaborator exposing
the set of dates with available imagery and, per date, the retrieved
variable/value pairs.  The SQLite tables TIMESERIES, DATA, VARIABLES and
STATISTICS are modelled as in-memory lists of rows; the code keeps its
pandas mirrors of those tables in sync with the database, so a single list
per table is a faithful model of both.
-/

namespace GEEDaR

/-- A row of the TIMESERIES table: `(TIMESERIESID, TIMESERIESDEMANDID,
TIMESERIESDATE)`.  The `TIMESERIESPROCESSDATE` column is write-only noise
for the logic modelled here and is omitted. -/
structure TSRow where
  id : Nat
  demandId : Nat
  date : Nat
deriving Repr, DecidableEq

/-- A row of the DATA table: `(DATATIMESERIESID, DATAVARID, DATASTATSID,
DATATIME, DATAVALUE)`. -/
structure DataRow where
  tsId : Nat
  varId : Nat
  statsId : Nat
  time : Int
  value : Int
deriving Repr, DecidableEq

/-- The mutable store state: the TIMESERIES, DATA, VARIABLES and STATISTICS
tables (the latter two as `(id, name)` pairs). -/
structure DB where
  ts : List TSRow
  data : List DataRow
  vars : List (Nat × String)
  stats : List (Nat × String)
deriving Repr, DecidableEq

/-- The result of one reduction request: a mapping from date to the list of
`(variable name, value)` pairs returned for that date, as an association
list (Python dict in the code). -/
abbrev ResultMap := List (Nat × List (String × Int))

/-- The deterministic external compute provider: the set of dates with
available imagery (`getAvailableDates`) and the values retrieved per
available date (`imageProcessing`/`estimation`/`reduction`). -/
structure Provider where
  available : List Nat
  values : Nat → List (String × Int)

/-- The TIMESERIES dates recorded for one demand:
`timeSeriesDF["TIMESERIESDATE"][timeSeriesDF["TIMESERIESDEMANDID"] == id]`. -/
def memberDates (ts : List TSRow) (m : Nat) : List Nat :=
  (ts.filter (fun r => r.demandId == m)).map (fun r => r.date)

/-- The full calendar span `pd.date_range(startDate, endDate)`, inclusive on
both ends (empty when `endDate < startDate`). -/
def spanOf (startDate endDate : Nat) : List Nat :=
  List.range' startDate (endDate + 1 - startDate)

/-- `GEEDaR.py` lines 2210-2218: in update mode (3) keep the span dates that
are missing from TIMESERIES for at least one group member (the code unions,
over the members, the indices of the dates not present for that member and
then re-sorts); in overwrite mode (4) keep the whole span. -/
def dateListFor (mode : Nat) (members : List Nat) (ts : List TSRow) (span : List Nat) :
    List Nat :=
  if mode == 3 then
    span.filter (fun d => members.any (fun m => !((memberDates ts m).contains d)))
  else
    span

/-- Minimum of a list of dates, `0` for the empty list (the code only takes
the minimum of nonempty series). -/
def listMinD : List Nat → Nat
  | [] => 0
  | x :: xs => xs.foldl min x

/-- Maximum of a list of dates, `0` for the empty list. -/
def listMaxD : List Nat → Nat
  | [] => 0
  | x :: xs => xs.foldl max x

/-- `GEEDaR.py` lines 2201-2205: the candidate span start.  With a nonempty
product start date the code computes
`max(min(member start dates), collection start)`; otherwise just
`min(member start dates)`. -/
def spanStartDate (memberStarts : List Nat) (collectionStart : Option Nat) : Nat :=
  match collectionStart with
  | some c => max (listMinD memberStarts) c
  | none => listMinD memberStarts

/-- `GEEDaR.py` line 2206: the candidate span end is the maximum of the
member end dates. -/
def spanEndDate (memberEnds : List Nat) : Nat :=
  listMaxD memberEnds

/-- `GEEDaR.py` lines 2222-2231: the earliest recorded TIMESERIES date of a
member, or the span start when the member has no history. -/
def earliestRec (ts : List TSRow) (startDate m : Nat) : Nat :=
  match memberDates ts m with
  | [] => startDate
  | x :: xs => xs.foldl min x

/-- `GEEDaR.py` lines 2222-2231: the latest recorded TIMESERIES date of a
member, or the span start when the member has no history. -/
def latestRec (ts : List TSRow) (startDate m : Nat) : Nat :=
  match memberDates ts m with
  | [] => startDate
  | x :: xs => xs.foldl max x

/-- The inner `while` loop of `GEEDaR.py` lines 2258-2263: take dates from
the pending list into one batch until `n` of them count against the cap
(only dates in `filtered`, the dates with available imagery, count).
Returns the batch and the remaining dates. -/
def takeGroup (filtered : List Nat) : Nat → List Nat → List Nat × List Nat
  | _, [] => ([], [])
  | n, d :: rest =>
    if n = 0 then ([], d :: rest)
    else
      let n2 := if filtered.contains d then n - 1 else n
      let p := takeGroup filtered n2 rest
      (d :: p.1, p.2)

/-- The outer `for g in range(nGroups)` loop of `GEEDaR.py` lines 2255-2263:
emit `g` batches, each holding at most `nSimImgs` available-imagery dates. -/
def buildGroups (filtered : List Nat) (nSimImgs : Nat) : Nat → List Nat → List (List Nat)
  | 0, _ => []
  | g + 1, rest =>
    let p := takeGroup filtered nSimImgs rest
    p.1 :: buildGroups filtered nSimImgs g p.2

/-- `math.ceil(a / b)` on natural numbers. -/
def ceilOfDiv (a b : Nat) : Nat :=
  (a + b - 1) / b

/-- The reduction result for one batch from the deterministic provider: one
entry per requested date with available imagery. -/
def resultFor (p : Provider) (batch : List Nat) : ResultMap :=
  batch.filterMap (fun d => if p.available.contains d then some (d, p.values d) else none)

/-- `GEEDaR.py` lines 2322-2335: split a returned variable name into the base
variable name and the statistic suffix (no suffix or an exported variable
means statistic "none"); the code takes the part of the name before the
first occurrence of the underscore-prefixed last component. -/
def parseVarName (expVars : List String) (var : String) : String × String :=
  if expVars.contains var then (var, "none")
  else
    let sfx := (var.splitOn "_").getLastD var
    if sfx == var then (var, "none")
    else ((var.splitOn ("_" ++ sfx)).headD var, sfx)

/-- `GEEDaR.py` lines 2336-2348: resolve a statistic name to its STATSID,
inserting a new STATISTICS row (id = current maximum + 1, or 1 for an empty
table) when the name is unknown; an existing name resolves to the id of its
last matching row. -/
def resolveStats (db : DB) (stats : String) : Nat × DB :=
  let rows := db.stats.filter (fun r => r.2 == stats)
  if rows.isEmpty then
    let newId := (db.stats.map Prod.fst).foldl max 0 + 1
    (newId, { db with stats := db.stats ++ [(newId, stats)] })
  else
    ((rows.map Prod.fst).getLastD 0, db)

/-- `GEEDaR.py` lines 2349-2361: resolve a variable name to its VARID,
inserting a new VARIABLES row when the name is unknown. -/
def resolveVar (db : DB) (varName : String) : Nat × DB :=
  let rows := db.vars.filter (fun r => r.2 == varName)
  if rows.isEmpty then
    let newId := (db.vars.map Prod.fst).foldl max 0 + 1
    (newId, { db with vars := db.vars ++ [(newId, varName)] })
  else
    ((rows.map Prod.fst).getLastD 0, db)

/-- The state threaded through the persistence loops of `databaseUpdate`:
the store, the running `lastTimeSeriesId` counter, the Python local
`currTimeSeriesId` (which persists across loop iterations), and the
`result` dict, which the code mutates by popping `img_time` entries. -/
structure WriterState where
  db : DB
  lastTimeSeriesId : Nat
  currTimeSeriesId : Option Nat
  result : ResultMap

/-- Replace the entry list stored under date `d` in the result mapping
(the mutation performed by `result[date].pop("img_time")`). -/
def updateResult (d : Nat) (v : List (String × Int)) (r : ResultMap) : ResultMap :=
  r.map (fun p => if p.1 == d then (p.1, v) else p)

/-- Body of the `for var, value in result[date].items()` loop (`GEEDaR.py`
lines 2321-2364): split the variable name, resolve the statistic id first
and the variable id second, as the code does, and append one DATA row. -/
def insertOneRow (expVars : List String) (tsId : Nat) (imgTime : Int)
    (db : DB) (e : String × Int) : DB :=
  let pv := parseVarName expVars e.1
  let st := resolveStats db pv.2
  let vr := resolveVar st.2 pv.1
  { vr.2 with data := vr.2.data ++ [⟨tsId, vr.1, st.1, imgTime, e.2⟩] }

/-- `GEEDaR.py` lines 2320-2364: save the variable values of one date, one
DATA row per `(variable, value)` pair. -/
def insertDataRows (expVars : List String) (tsId : Nat) (imgTime : Int)
    (entries : List (String × Int)) (db : DB) : DB :=
  entries.foldl (insertOneRow expVars tsId imgTime) db

/-- `sameDate_rows` (`GEEDaR.py` line 2300): the TIMESERIES rows already
recorded for `(member, date)`. -/
def sameDateRows (s : WriterState) (m d : Nat) : List TSRow :=
  s.db.ts.filter (fun r => (r.date == d) && (r.demandId == m))

/-- The id the code reuses for an existing `(member, date)` record:
`timeSeriesDF["TIMESERIESID"][sameDate_rows].to_list()[-1]`. -/
def lastSameId (s : WriterState) (m d : Nat) : Nat :=
  ((sameDateRows s m d).map (fun r => r.id)).getLastD 0

/-- First half of the `for date in dateSublist` body (`GEEDaR.py` lines
2298-2310): insert a new TIMESERIES record when none exists for
`(member, date)` and the date is in the result or lies strictly inside the
member's recorded range; otherwise reuse the id of the last existing
record, deleting its DATA rows in overwrite mode (4). -/
def tsStep (mode m eM lM : Nat) (s : WriterState) (d : Nat) : WriterState :=
  if (sameDateRows s m d).isEmpty &&
      ((s.result.lookup d).isSome || (decide (eM < d) && decide (d < lM))) then
    { s with db := { s.db with ts := s.db.ts ++ [⟨s.lastTimeSeriesId + 1, m, d⟩] },
             lastTimeSeriesId := s.lastTimeSeriesId + 1,
             currTimeSeriesId := some (s.lastTimeSeriesId + 1) }
  else if !(sameDateRows s m d).isEmpty then
    if mode == 4 then
      { s with db := { s.db with
                 data := s.db.data.filter (fun r => !(r.tsId == lastSameId s m d)) },
               currTimeSeriesId := some (lastSameId s m d) }
    else
      { s with currTimeSeriesId := some (lastSameId s m d) }
  else s

/-- Second half of the `for date in dateSublist` body (`GEEDaR.py` lines
2312-2366): if the result has data for the date, pop the `img_time` entry
(mutating the result dict) and insert one DATA row per remaining variable,
referencing the current TIMESERIES id. -/
def dataStep (expVars : List String) (s1 : WriterState) (d : Nat) : WriterState :=
  match s1.result.lookup d with
  | none => s1
  | some entries0 =>
    if (entries0.lookup "img_time").isSome then
      { s1 with
        db := insertDataRows expVars (s1.currTimeSeriesId.getD 0)
          ((entries0.lookup "img_time").getD 0)
          (entries0.filter (fun e => !(e.1 == "img_time"))) s1.db,
        result := updateResult d (entries0.filter (fun e => !(e.1 == "img_time"))) s1.result }
    else
      { s1 with
        db := insertDataRows expVars (s1.currTimeSeriesId.getD 0)
          ((entries0.lookup "img_time").getD 0) entries0 s1.db }

/-- The full `for date in dateSublist` body for one member and one date
(`GEEDaR.py` lines 2296-2366): the TIMESERIES upsert followed by the DATA
inserts (`tsStep` does not touch the result dict, so looking the date up
after it is the same as before it). -/
def writeDate (expVars : List String) (mode m eM lM : Nat) (s : WriterState) (d : Nat) :
    WriterState :=
  dataStep expVars (tsStep mode m eM lM s d) d

/-- `GEEDaR.py` lines 2294-2366, body of `for demandGroup_id in
demandGroup_ids`: skip the member when the result is empty and the batch
lies beyond its latest record, before its earliest record, or the member
has no history extending past the span start; otherwise process every
batch date in order. -/
def writeMember (expVars : List String) (mode startTs : Nat) (earliest latest : Nat → Nat)
    (batch : List Nat) (s : WriterState) (m : Nat) : WriterState :=
  if s.result.isEmpty &&
      (decide (latest m < batch.headD 0) || decide (batch.getLastD 0 < earliest m) ||
        (latest m == startTs)) then
    s
  else
    batch.foldl (writeDate expVars mode m (earliest m) (latest m)) s

/-- `GEEDaR.py` lines 2286-2366: persist one batch result: read the current
maximum TIMESERIESID (0 for an empty table) and run the member loop. -/
def writeBatch (expVars : List String) (mode startTs : Nat) (members : List Nat)
    (earliest latest : Nat → Nat) (batch : List Nat) (result : ResultMap) (db : DB) : DB :=
  let lastId := (db.ts.map (fun r => r.id)).foldl max 0
  (members.foldl (writeMember expVars mode startTs earliest latest batch)
    { db := db, lastTimeSeriesId := lastId, currTimeSeriesId := none, result := result }).db

/-- `GEEDaR.py` lines 2200-2366 for one demand group under a deterministic
provider: compute the pending date list for the running mode, record each
member's earliest/latest history, intersect with the provider's available
dates, cut the pending list into capacity-bounded batches (none when no
pending date has imagery) and persist each batch result in order. -/
def runGroup (p : Provider) (expVars : List String) (mode : Nat) (members : List Nat)
    (startDate endDate nSimImgs : Nat) (db : DB) : DB :=
  let span := spanOf startDate endDate
  let dateList := dateListFor mode members db.ts span
  let filtered := dateList.filter (fun d => p.available.contains d)
  let groups :=
    if filtered.length == 0 then []
    else buildGroups filtered nSimImgs (ceilOfDiv filtered.length nSimImgs) dateList
  groups.foldl
    (fun acc batch =>
      writeBatch expVars mode startDate members (earliestRec db.ts startDate)
        (latestRec db.ts startDate) batch (resultFor p batch) acc)
    db

/-- An outcome of one whole-batch `getInfo` call in `reduction`
(`GEEDaR.py` lines 1402-1446): success, computation timeout, output too
large, or any other (transient) error. -/
inductive GEEOutcome where
  | success
  | timeout
  | outputTooLarge
  | transient
deriving Repr, DecidableEq

/-- Counts of the provider result-requests issued by `reduction` for one
batch: whole-batch requests, per-date fallback requests, and how many times
the per-date fallback was entered. -/
structure RetrCounts where
  batchRequests : Nat
  perDateRequests : Nat
  fallbacks : Nat
deriving Repr, DecidableEq

/-- The `for c in range(3)` retry loop of `reduction` (`GEEDaR.py` lines
1394-1446), counting result-requests.  `att c` is the outcome of the
whole-batch request of attempt `c`; `nDates` is the length of the
collection's date list.  On the second consecutive timeout the code falls
back to one request per date — but only when the collection has more than
one date — and then breaks; success also breaks; other failures retry
(tile-scale doubling and the 30-second sleep do not issue result-requests
and are not counted). -/
def redLoop (att : Nat → GEEOutcome) (nDates : Nat) :
    List Nat → Nat → RetrCounts → RetrCounts
  | [], _, acc => acc
  | c :: cs, timeoutcounts, acc =>
    let acc1 : RetrCounts := { acc with batchRequests := acc.batchRequests + 1 }
    match att c with
    | GEEOutcome.success => acc1
    | GEEOutcome.timeout =>
      let tc := timeoutcounts + 1
      if 2 ≤ tc then
        if 1 < nDates then
          { acc1 with perDateRequests := acc1.perDateRequests + nDates,
                      fallbacks := acc1.fallbacks + 1 }
        else redLoop att nDates cs tc acc1
      else redLoop att nDates cs tc acc1
    | GEEOutcome.outputTooLarge => redLoop att nDates cs timeoutcounts acc1
    | GEEOutcome.transient => redLoop att nDates cs timeoutcounts acc1

/-- The retry behaviour of `reduction` for one batch: three attempts,
starting with a zero timeout counter and zero counts. -/
def reductionRetries (att : Nat → GEEOutcome) (nDates : Nat) : RetrCounts :=
  redLoop att nDates [0, 1, 2] 0 ⟨0, 0, 0⟩

/-- A validated row of the DEMANDS table (joined with its station), as the
demand loop of `databaseUpdate` reads it. -/
structure DemandRec where
  id : Nat
  stId : Nat
  status : Nat
  prodId : Nat
  procAlgoId : Nat
  estimAlgoId : Nat
  reducId : Nat
  aoiMode : Nat
  aoiRadius : Nat
  kmlFile : String
deriving Repr, DecidableEq

/-- `GEEDaR.py` line 2168: two demands share a retrieval group when
station, product, processing algorithm, reducer and AOI definition all
agree (the estimation algorithm and the status are not part of the key). -/
def sameGroupKey (a b : DemandRec) : Bool :=
  a.stId == b.stId && a.prodId == b.prodId && a.procAlgoId == b.procAlgoId &&
  a.reducId == b.reducId && a.aoiMode == b.aoiMode && a.aoiRadius == b.aoiRadius &&
  a.kmlFile == b.kmlFile

/-- Observable events of the demand loop: a committed DEMANDSTATUS reset,
or the start of processing (retrieval for modes 3/4, estimation-only for
mode 5) of a group of demand ids under an effective running mode. -/
inductive DemandEvent where
  | statusReset (demandId : Nat)
  | retrieve (memberIds : List Nat) (mode : Nat)
deriving Repr, DecidableEq

/-- The state of the demand loop of `databaseUpdate` (`GEEDaR.py` lines
2140-2171): the `alreadyProcessed` row indices, the stored DEMANDSTATUS
values, and the ordered trace of events. -/
structure LoopState where
  processed : List Nat
  statuses : List (Nat × Nat)
  events : List DemandEvent
deriving Repr, DecidableEq

/-- `UPDATE DEMANDS SET DEMANDSTATUS = ? WHERE DEMANDID = ?`. -/
def setStatus (statuses : List (Nat × Nat)) (demandId newStatus : Nat) :
    List (Nat × Nat) :=
  statuses.map (fun p => if p.1 == demandId then (p.1, newStatus) else p)

/-- One iteration of the demand loop (`GEEDaR.py` lines 2141-2171): skip
rows already absorbed into an earlier group; otherwise adopt the demand's
status as the running mode when it is 3, 4 or 5, reset any status above 1
to 1 and commit, and then either form the retrieval group of all rows
sharing the key (modes below 5) or process the single demand
(estimation-only mode 5). -/
def demandStep (running : Nat) (all : List DemandRec) (st : LoopState) (i : Nat) :
    LoopState :=
  if st.processed.contains i then st
  else
    match all[i]? with
    | none => st
    | some d =>
      let mode := if d.status == 3 || d.status == 4 || d.status == 5 then d.status else running
      let st1 :=
        if 1 < d.status then
          { st with statuses := setStatus st.statuses d.id 1,
                    events := st.events ++ [DemandEvent.statusReset d.id] }
        else st
      if mode < 5 then
        let groupIdx := (List.range all.length).filter
          (fun j => match all[j]? with | some dj => sameGroupKey d dj | none => false)
        let groupIds := groupIdx.filterMap (fun j => (all[j]?).map (fun dj => dj.id))
        { st1 with processed := st1.processed ++ groupIdx,
                   events := st1.events ++ [DemandEvent.retrieve groupIds mode] }
      else
        { st1 with events := st1.events ++ [DemandEvent.retrieve [d.id] 5] }

/-- The demand loop of `databaseUpdate` over the validated demand rows, in
catalog order. -/
def demandLoop (running : Nat) (all : List DemandRec) : LoopState :=
  (List.range all.length).foldl (demandStep running all)
    { processed := [], statuses := all.map (fun d => (d.id, d.status)), events := [] }

/-- There is a TIMESERIES record for the given demand and date. -/
def memberHas (ts : List TSRow) (m d : Nat) : Prop :=
  ∃ r ∈ ts, r.demandId = m ∧ r.date = d

/-- The TIMESERIES invariant: at most one record per (demand, date). -/
def atMostOnePerKey (ts : List TSRow) : Prop :=
  ∀ m d, (ts.filter (fun r => (r.date == d) && (r.demandId == m))).length ≤ 1

/-- The pending-date rule exactly as the specification words it for update
mode: the span minus every date that already has a TIMESERIES record for
any group member.  Stated from the spec for comparison with `dateListFor`,
which is translated from the code. -/
def specPendingDates (span : List Nat) (members : List Nat) (ts : List TSRow) : List Nat :=
  span.filter (fun d => !(members.any (fun m => (memberDates ts m).contains d)))

/-- Number of dates of `l` that count against the batch-size cap, i.e. the
dates with available imagery. -/
def countAvail (f : List Nat) (l : List Nat) : Nat :=
  (l.filter (fun d => f.contains d)).length

/-- Number of DATA rows that one date's result entry produces: its
variable/value pairs minus the `img_time` entry. -/
def entCountD (r : ResultMap) (d : Nat) : Nat :=
  (((r.lookup d).getD []).filter (fun e => !(e.1 == "img_time"))).length

/-- Bookkeeping invariant around a TIMESERIES id `i` belonging to
`(member, date)`: every row carrying id `i` has that key, `i` and all ids
are bounded by the running id counter, and ids are pairwise distinct. -/
def FrameInv (i m d : Nat) (s : WriterState) : Prop :=
  (∀ r ∈ s.db.ts, r.id = i → r.demandId = m ∧ r.date = d) ∧
  i ≤ s.lastTimeSeriesId ∧
  (∀ r ∈ s.db.ts, r.id ≤ s.lastTimeSeriesId) ∧
  (s.db.ts.map (fun r => r.id)).Nodup

/-- Bookkeeping invariant before a gap stub for `(member, date)` is
created: no record for the key yet, ids bounded and distinct, every DATA
row referencing an existing record, and no result entry for the date. -/
def StubInv (m d : Nat) (s : WriterState) : Prop :=
  s.db.ts.filter (fun r => (r.date == d) && (r.demandId == m)) = [] ∧
  (∀ r ∈ s.db.ts, r.id ≤ s.lastTimeSeriesId) ∧
  (s.db.ts.map (fun r => r.id)).Nodup ∧
  (∀ r ∈ s.db.data, ∃ t ∈ s.db.ts, r.tsId = t.id) ∧
  s.result.lookup d = none

/-- Invariant carried through the writer iterations that precede the target
`(member, date)` pair: the frame invariant plus fixed values for the DATA
rows of id `i`, the TIMESERIES rows of the key, the entry count the result
holds for the date, and the result still holding an entry for the date. -/
def OverwriteInvA (i m d : Nat) (v : List DataRow) (w : List TSRow) (n : Nat)
    (s : WriterState) : Prop :=
  FrameInv i m d s ∧
  s.db.data.filter (fun r => r.tsId == i) = v ∧
  s.db.ts.filter (fun r => (r.date == d) && (r.demandId == m)) = w ∧
  entCountD s.result d = n ∧
  (s.result.lookup d).isSome = true ∧
  s.result.isEmpty = false

/-- Invariant carried through the writer iterations that follow the target
`(member, date)` pair: the frame invariant plus the number of DATA rows of
id `i` and the TIMESERIES rows of the key. -/
def OverwriteInvB (i m d n : Nat) (w : List TSRow) (s : WriterState) : Prop :=
  FrameInv i m d s ∧
  (s.db.data.filter (fun r => r.tsId == i)).length = n ∧
  s.db.ts.filter (fun r => (r.date == d) && (r.demandId == m)) = w

/-! ### General lemmas -/

theorem foldl_pres {σ α : Type _} (P : σ → Prop) (f : σ → α → σ)
    (h : ∀ s a, P s → P (f s a)) : ∀ (l : List α) (s : σ), P s → P (l.foldl f s)
  | [], _, hs => hs
  | a :: l, s, hs => foldl_pres P f h l (f s a) (h s a hs)

theorem takeGroup_append (f : List Nat) : ∀ (n : Nat) (l : List Nat),
    (takeGroup f n l).1 ++ (takeGroup f n l).2 = l
  | _, [] => rfl
  | n, d :: rest => by
    by_cases h : n = 0
    · simp [takeGroup, h]
    · simp only [takeGroup, if_neg h]
      simpa using takeGroup_append f _ rest

theorem takeGroup_countAvail_fst (f : List Nat) : ∀ (n : Nat) (l : List Nat),
    countAvail f (takeGroup f n l).1 ≤ n
  | _, [] => Nat.zero_le _
  | n, d :: rest => by
    by_cases h : n = 0
    · simp [takeGroup, h, countAvail]
    · simp only [takeGroup, if_neg h]
      by_cases hd : f.contains d
      · have ih := takeGroup_countAvail_fst f (n - 1) rest
        simp only [countAvail, List.filter_cons, hd, if_pos, List.length_cons] at *
        omega
      · have ih := takeGroup_countAvail_fst f n rest
        simp only [countAvail, List.filter_cons, hd] at *
        simpa [hd] using ih

theorem takeGroup_countAvail_snd (f : List Nat) : ∀ (n : Nat) (l : List Nat),
    countAvail f (takeGroup f n l).2 = countAvail f l - n
  | n, [] => by simp [takeGroup, countAvail]
  | n, d :: rest => by
    by_cases h : n = 0
    · simp [takeGroup, h]
    · simp only [takeGroup, if_neg h]
      by_cases hd : f.contains d
      · have ih := takeGroup_countAvail_snd f (n - 1) rest
        simp only [countAvail, List.filter_cons, hd, if_pos, List.length_cons] at *
        omega
      · have ih := takeGroup_countAvail_snd f n rest
        simp only [countAvail, List.filter_cons, hd] at *
        simpa [hd] using ih

theorem buildGroups_mem_countAvail (f : List Nat) (n : Nat) :
    ∀ (g : Nat) (l : List Nat) (batch : List Nat),
      batch ∈ buildGroups f n g l → countAvail f batch ≤ n
  | 0, _, _, h => absurd h (List.not_mem_nil _)
  | g + 1, l, batch, h => by
    simp only [buildGroups, List.mem_cons] at h
    rcases h with h | h
    · exact h ▸ takeGroup_countAvail_fst f n l
    · exact buildGroups_mem_countAvail f n g _ batch h

theorem buildGroups_flatten (f : List Nat) (n : Nat) :
    ∀ (g : Nat) (l : List Nat),
      ∃ rem, (buildGroups f n g l).flatten ++ rem = l ∧
        countAvail f rem = countAvail f l - g * n
  | 0, l => ⟨l, by simp [buildGroups]⟩
  | g + 1, l => by
    simp only [buildGroups, List.flatten_cons]
    obtain ⟨rem, h1, h2⟩ := buildGroups_flatten f n g (takeGroup f n l).2
    refine ⟨rem, ?_, ?_⟩
    · rw [List.append_assoc, h1, takeGroup_append]
    · rw [h2, takeGroup_countAvail_snd]
      have : (g + 1) * n = n + g * n := by ring
      omega

theorem le_ceilOfDiv_mul (a b : Nat) (hb : 1 ≤ b) : a ≤ ceilOfDiv a b * b := by
  have h1 := Nat.div_add_mod (a + b - 1) b
  have h2 : (a + b - 1) % b < b := Nat.mod_lt _ hb
  show a ≤ (a + b - 1) / b * b
  rw [Nat.mul_comm]
  generalize hz : b * ((a + b - 1) / b) = z at h1
  omega

theorem foldl_min_le_init : ∀ (xs : List Nat) (x : Nat), xs.foldl min x ≤ x
  | [], _ => Nat.le_refl _
  | y :: xs, x => (foldl_min_le_init xs (min x y)).trans (Nat.min_le_left _ _)

theorem foldl_min_le_mem : ∀ (xs : List Nat) (x y : Nat), y ∈ xs → xs.foldl min x ≤ y
  | [], _, _, h => absurd h (List.not_mem_nil _)
  | z :: xs, x, y, h => by
    rcases List.mem_cons.mp h with rfl | h
    · exact (foldl_min_le_init xs (min x y)).trans (Nat.min_le_right _ _)
    · exact foldl_min_le_mem xs (min x z) y h

theorem foldl_min_mem : ∀ (xs : List Nat) (x : Nat), xs.foldl min x = x ∨ xs.foldl min x ∈ xs
  | [], _ => Or.inl rfl
  | y :: xs, x => by
    rcases foldl_min_mem xs (min x y) with h | h
    · rcases Nat.le_total x y with hxy | hxy
      · exact Or.inl (by rw [List.foldl_cons, h]; omega)
      · refine Or.inr (List.mem_cons.mpr (Or.inl ?_))
        rw [List.foldl_cons, h]; omega
    · exact Or.inr (List.mem_cons.mpr (Or.inr h))

theorem foldl_max_le_init : ∀ (xs : List Nat) (x : Nat), x ≤ xs.foldl max x
  | [], _ => Nat.le_refl _
  | y :: xs, x => (Nat.le_max_left x y).trans (foldl_max_le_init xs (max x y))

theorem foldl_max_le_mem : ∀ (xs : List Nat) (x y : Nat), y ∈ xs → y ≤ xs.foldl max x
  | [], _, _, h => absurd h (List.not_mem_nil _)
  | z :: xs, x, y, h => by
    rcases List.mem_cons.mp h with rfl | h
    · exact (Nat.le_max_right x y).trans (foldl_max_le_init xs (max x y))
    · exact foldl_max_le_mem xs (max x z) y h

theorem foldl_max_mem : ∀ (xs : List Nat) (x : Nat), xs.foldl max x = x ∨ xs.foldl max x ∈ xs
  | [], _ => Or.inl rfl
  | y :: xs, x => by
    rcases foldl_max_mem xs (max x y) with h | h
    · rcases Nat.le_total x y with hxy | hxy
      · refine Or.inr (List.mem_cons.mpr (Or.inl ?_))
        rw [List.foldl_cons, h]; omega
      · exact Or.inl (by rw [List.foldl_cons, h]; omega)
    · exact Or.inr (List.mem_cons.mpr (Or.inr h))

theorem listMinD_mem {l : List Nat} (h : l ≠ []) : listMinD l ∈ l := by
  match l with
  | x :: xs =>
    rcases foldl_min_mem xs x with h1 | h1
    · exact List.mem_cons.mpr (Or.inl (by simpa [listMinD] using h1))
    · exact List.mem_cons.mpr (Or.inr (by simpa [listMinD] using h1))

theorem listMinD_le {l : List Nat} (x : Nat) (hx : x ∈ l) : listMinD l ≤ x := by
  match l with
  | y :: xs =>
    rcases List.mem_cons.mp hx with rfl | hmem
    · exact (foldl_min_le_init xs x : listMinD (x :: xs) ≤ x)
    · exact foldl_min_le_mem xs y x hmem

theorem listMaxD_mem {l : List Nat} (h : l ≠ []) : listMaxD l ∈ l := by
  match l with
  | x :: xs =>
    rcases foldl_max_mem xs x with h1 | h1
    · exact List.mem_cons.mpr (Or.inl (by simpa [listMaxD] using h1))
    · exact List.mem_cons.mpr (Or.inr (by simpa [listMaxD] using h1))

theorem le_listMaxD {l : List Nat} (x : Nat) (hx : x ∈ l) : x ≤ listMaxD l := by
  match l with
  | y :: xs =>
    rcases List.mem_cons.mp hx with rfl | hmem
    · exact (foldl_max_le_init xs x : x ≤ listMaxD (x :: xs))
    · exact foldl_max_le_mem xs y x hmem

theorem memberDates_contains_iff (ts : List TSRow) (m d : Nat) :
    (memberDates ts m).contains d = true ↔ memberHas ts m d := by
  simp only [memberDates, memberHas, List.contains_eq_any_beq, List.any_eq_true,
    List.mem_map, List.mem_filter, beq_iff_eq]
  constructor
  · rintro ⟨x, ⟨r, ⟨hr, hdm⟩, rfl⟩, rfl⟩
    exact ⟨r, hr, hdm, rfl⟩
  · rintro ⟨r, hr, hdm, rfl⟩
    exact ⟨r.date, ⟨r, ⟨hr, by simpa using hdm⟩, rfl⟩, rfl⟩

/-! ### C4: batch sizing bound -/

/-- C4: for a demand group with AOI pixel count `pixCnt` and
processing-algorithm image cap `imgCap`, no batch emitted by the scheduler
contains more than `min(ceil(max_n_proc_pixels / pixCnt), imgCap)` dates
with available imagery (dates without imagery may make a batch span more
calendar dates, but do not count against the bound). -/
theorem claim4_batch_size_bound (maxPix pixCnt imgCap g : Nat)
    (filtered dateList batch : List Nat)
    (hmem : batch ∈ buildGroups filtered (min (ceilOfDiv maxPix pixCnt) imgCap) g dateList) :
    countAvail filtered batch ≤ min (ceilOfDiv maxPix pixCnt) imgCap :=
  buildGroups_mem_countAvail _ _ g dateList batch hmem

/-- Witness for C4 at the spec's own scenario: AOI pixel count 50000,
global cap 25000, algorithm cap 40, giving an effective batch size of 1. -/
theorem claim4_batch_size_bound_witness :
    [1, 2] ∈ buildGroups [0, 2, 4] (min (ceilOfDiv 25000 50000) 40) 3 [0, 1, 2, 3, 4] ∧
    countAvail [0, 2, 4] [1, 2] ≤ min (ceilOfDiv 25000 50000) 40 :=
  ⟨by decide,
    claim4_batch_size_bound 25000 50000 40 3 [0, 2, 4] [0, 1, 2, 3, 4] [1, 2] (by decide)⟩

/-! ### C5: retry bound of the Retrieval Executor -/

theorem redLoop_batch_le (att : Nat → GEEOutcome) (n : Nat) :
    ∀ (cs : List Nat) (tc : Nat) (acc : RetrCounts),
      (redLoop att n cs tc acc).batchRequests ≤ acc.batchRequests + cs.length := by
  intro cs
  induction cs with
  | nil => intro tc acc; simp [redLoop]
  | cons c cs ih =>
    intro tc acc
    simp only [redLoop, List.length_cons]
    cases att c with
    | success => simp; try omega
    | timeout =>
      dsimp only
      split
      · split
        · simp; try omega
        · exact (ih _ _).trans (by simp; try omega)
      · exact (ih _ _).trans (by simp; try omega)
    | outputTooLarge => exact (ih _ _).trans (by simp; try omega)
    | transient => exact (ih _ _).trans (by simp; try omega)

theorem redLoop_fallbacks_le (att : Nat → GEEOutcome) (n : Nat) :
    ∀ (cs : List Nat) (tc : Nat) (acc : RetrCounts),
      (redLoop att n cs tc acc).fallbacks ≤ acc.fallbacks + 1 := by
  intro cs
  induction cs with
  | nil => intro tc acc; simp [redLoop]
  | cons c cs ih =>
    intro tc acc
    simp only [redLoop]
    cases att c with
    | success => simp
    | timeout =>
      dsimp only
      split
      · split
        · simp
        · exact (ih _ _).trans (by simp)
      · exact (ih _ _).trans (by simp)
    | outputTooLarge => exact (ih _ _).trans (by simp)
    | transient => exact (ih _ _).trans (by simp)

theorem reductionRetries_timeout (att : Nat → GEEOutcome) (n : Nat)
    (h : ∀ c, att c = GEEOutcome.timeout) :
    reductionRetries att n =
      if 1 < n then ⟨2, n, 1⟩ else ⟨3, 0, 0⟩ := by
  simp only [reductionRetries, redLoop, h]
  by_cases h1 : 1 < n <;> simp [h1]

/-- Counterexample to C5 as stated: a single-date batch whose attempts all
time out gets three whole-batch attempts and zero per-date fallbacks (the
code only falls back when the collection has more than one date), so it does
not trigger "exactly one fallback". -/
theorem claim5_as_stated_counterexample :
    (reductionRetries (fun _ => GEEOutcome.timeout) 1).batchRequests = 3 ∧
    (reductionRetries (fun _ => GEEOutcome.timeout) 1).perDateRequests = 0 ∧
    (reductionRetries (fun _ => GEEOutcome.timeout) 1).fallbacks = 0 := by
  decide

/-- C5 (amended): `reduction` makes at most 3 whole-batch attempts and at
most one per-date fallback for any batch; a batch with at least one date
whose attempts always time out issues at most 1 (initial) + 1 (retry) + N
(per-date fallback) provider result-requests — but the fallback fires only
when the batch has more than one date (a one-date batch is retried as a
whole three times instead). -/
theorem claim5_retry_bound (att : Nat → GEEOutcome) (n : Nat) :
    (reductionRetries att n).batchRequests ≤ 3 ∧
    (reductionRetries att n).fallbacks ≤ 1 ∧
    ((∀ c, att c = GEEOutcome.timeout) → 1 ≤ n →
      (reductionRetries att n).batchRequests + (reductionRetries att n).perDateRequests
        ≤ 1 + 1 + n) := by
  refine ⟨?_, ?_, ?_⟩
  · simpa using redLoop_batch_le att n [0, 1, 2] 0 ⟨0, 0, 0⟩
  · simpa using redLoop_fallbacks_le att n [0, 1, 2] 0 ⟨0, 0, 0⟩
  · intro h hn
    rw [reductionRetries_timeout att n h]
    split
    · simp; try omega
    · simp; try omega

/-- Witness for C5 at a concrete always-timeout batch of 5 dates. -/
theorem claim5_retry_bound_witness :
    (reductionRetries (fun _ => GEEOutcome.timeout) 5).batchRequests ≤ 3 ∧
    (reductionRetries (fun _ => GEEOutcome.timeout) 5).fallbacks ≤ 1 ∧
    (reductionRetries (fun _ => GEEOutcome.timeout) 5).batchRequests +
      (reductionRetries (fun _ => GEEOutcome.timeout) 5).perDateRequests ≤ 1 + 1 + 5 :=
  ⟨(claim5_retry_bound _ 5).1, (claim5_retry_bound _ 5).2.1,
    (claim5_retry_bound _ 5).2.2 (fun _ => rfl) (by decide)⟩

/-! ### C7: the Date Range Planner's candidate span -/

/-- Counterexample to C7 as stated: with member start dates 1 and 5 and
product availability 0, the code starts the span at
`max(min(1, 5), 0) = 1`, not at `max(latest start, availability) = 5`. -/
theorem claim7_as_stated_counterexample :
    listMaxD [1, 5] = 5 ∧ spanStartDate [1, 5] (some 0) = 1 ∧
    spanStartDate [1, 5] (some 0) ≠ max (listMaxD [1, 5]) 0 := by
  decide

/-- C7 (amended): the candidate span starts at the maximum of the
*earliest* of the members' start dates and the product's availability date
(when the product declares one), and ends at the maximum of the members'
end dates. -/
theorem claim7_candidate_span (starts ends : List Nat) (c : Nat)
    (h1 : starts ≠ []) (h2 : ends ≠ []) :
    spanStartDate starts (some c) = max (listMinD starts) c ∧
    spanStartDate starts none = listMinD starts ∧
    listMinD starts ∈ starts ∧ (∀ x ∈ starts, listMinD starts ≤ x) ∧
    spanEndDate ends ∈ ends ∧ (∀ x ∈ ends, x ≤ spanEndDate ends) :=
  ⟨rfl, rfl, listMinD_mem h1, fun _ hx => listMinD_le _ hx,
    listMaxD_mem h2, fun _ hx => le_listMaxD _ hx⟩

/-- Witness for C7 at concrete member date lists. -/
theorem claim7_candidate_span_witness :
    spanStartDate [3, 7] (some 5) = max (listMinD [3, 7]) 5 ∧
    spanStartDate [3, 7] none = listMinD [3, 7] ∧
    listMinD [3, 7] ∈ [3, 7] ∧ (∀ x ∈ [3, 7], listMinD [3, 7] ≤ x) ∧
    spanEndDate [4, 9] ∈ [4, 9] ∧ (∀ x ∈ [4, 9], x ≤ spanEndDate [4, 9]) :=
  claim7_candidate_span [3, 7] [4, 9] 5 (by decide) (by decide)

/-! ### C2: pending dates in update mode -/

/-- Counterexample to C2 as stated: a two-member group over span
`[0, 1]` where member 1 already has a record at date 0 still requests
date 0 (because member 2 lacks it): the code's pending list is the union of
the members' missing dates, not the span minus dates recorded for any
member. -/
theorem claim2_as_stated_counterexample :
    dateListFor 3 [1, 2] [⟨1, 1, 0⟩] (spanOf 0 1) = [0, 1] ∧
    specPendingDates (spanOf 0 1) [1, 2] [⟨1, 1, 0⟩] = [1] ∧
    dateListFor 3 [1, 2] [⟨1, 1, 0⟩] (spanOf 0 1) ≠
      specPendingDates (spanOf 0 1) [1, 2] [⟨1, 1, 0⟩] ∧
    (memberDates [⟨1, 1, 0⟩] 1).contains 0 = true ∧
    0 ∈ dateListFor 3 [1, 2] [⟨1, 1, 0⟩] (spanOf 0 1) := by
  decide

/-- C2 (amended): in update mode a span date is requested iff at least one
group member has no TIMESERIES record for it; a date is skipped only when
*every* member already has a record (a date present for one member but
missing for another is requested again). -/
theorem claim2_update_pending (span : List Nat) (members : List Nat) (ts : List TSRow)
    (d : Nat) :
    d ∈ dateListFor 3 members ts span ↔
      d ∈ span ∧ ∃ m ∈ members, ¬ memberHas ts m d := by
  simp only [dateListFor, if_pos (by decide : ((3 : Nat) == 3) = true), List.mem_filter,
    List.any_eq_true, Bool.not_eq_true']
  constructor
  · rintro ⟨hspan, m, hm, hc⟩
    refine ⟨hspan, m, hm, fun hhas => ?_⟩
    rw [(memberDates_contains_iff ts m d).mpr hhas] at hc
    simp at hc
  · rintro ⟨hspan, m, hm, hhas⟩
    refine ⟨hspan, m, hm, ?_⟩
    cases hc : (memberDates ts m).contains d with
    | false => rfl
    | true => exact absurd ((memberDates_contains_iff ts m d).mp hc) hhas

/-! ### Lemmas on the persistence primitives -/

theorem filter_self_filter {α : Type _} (p : α → Bool) :
    ∀ l : List α, (l.filter p).filter p = l.filter p
  | [] => rfl
  | a :: l => by
    by_cases h : p a
    · simp [List.filter_cons, h, filter_self_filter p l]
    · simp [List.filter_cons, h, filter_self_filter p l]

theorem filter_of_lookup_time_none :
    ∀ {es : List (String × Int)}, es.lookup "img_time" = none →
      es.filter (fun e => !(e.1 == "img_time")) = es
  | [], _ => rfl
  | (k, w) :: es, h => by
    rw [List.lookup_cons] at h
    cases hk : (("img_time" : String) == k) with
    | true => simp [hk] at h
    | false =>
      simp only [hk] at h
      have hk2 : (k == "img_time") = false := by
        cases hq : k == "img_time"
        · rfl
        · rw [beq_iff_eq.mp hq] at hk; simp at hk
      simp [List.filter_cons, hk2, filter_of_lookup_time_none h]

theorem updateResult_cons (d : Nat) (v : List (String × Int)) (k : Nat)
    (w : List (String × Int)) (r : ResultMap) :
    updateResult d v ((k, w) :: r) =
      (if k == d then (k, v) else (k, w)) :: updateResult d v r := rfl

theorem updateResult_lookup_ne {d x : Nat} (v : List (String × Int)) :
    ∀ (r : ResultMap), ¬(x = d) → (updateResult d v r).lookup x = r.lookup x
  | [], _ => rfl
  | (k, w) :: r, h => by
    rw [updateResult_cons]
    by_cases hk : (k == d) = true
    · rw [if_pos hk]
      have hx : (x == k) = false := by
        cases hq : x == k
        · rfl
        · exact absurd ((beq_iff_eq.mp hk) ▸ beq_iff_eq.mp hq) h
      rw [List.lookup_cons, List.lookup_cons]
      simp only [hx]
      exact updateResult_lookup_ne v r h
    · rw [if_neg hk]
      rw [List.lookup_cons, List.lookup_cons]
      cases hx : (x == k) with
      | false =>
        simp only []
        exact updateResult_lookup_ne v r h
      | true => rfl

theorem updateResult_lookup_self (d : Nat) (v : List (String × Int)) :
    ∀ (r : ResultMap), (updateResult d v r).lookup d = (r.lookup d).map (fun _ => v)
  | [] => rfl
  | (k, w) :: r => by
    rw [updateResult_cons]
    by_cases hk : (k == d) = true
    · rw [if_pos hk]
      have hdk : (d == k) = true := beq_iff_eq.mpr (beq_iff_eq.mp hk).symm
      rw [List.lookup_cons, List.lookup_cons]
      simp only [hdk]
      rfl
    · rw [if_neg hk]
      have hdk : (d == k) = false := by
        cases hq : d == k
        · rfl
        · exact absurd (beq_iff_eq.mpr (beq_iff_eq.mp hq).symm) hk
      rw [List.lookup_cons, List.lookup_cons]
      simp only [hdk]
      exact updateResult_lookup_self d v r

theorem updateResult_isEmpty (d : Nat) (v : List (String × Int)) (r : ResultMap) :
    (updateResult d v r).isEmpty = r.isEmpty := by
  cases r with
  | nil => rfl
  | cons e r => by_cases he : e.1 == d <;> simp [updateResult, he]

theorem resolveStats_ts (db : DB) (s : String) : (resolveStats db s).2.ts = db.ts := by
  simp only [resolveStats]
  split <;> rfl

theorem resolveStats_data (db : DB) (s : String) : (resolveStats db s).2.data = db.data := by
  simp only [resolveStats]
  split <;> rfl

theorem resolveVar_ts (db : DB) (v : String) : (resolveVar db v).2.ts = db.ts := by
  simp only [resolveVar]
  split <;> rfl

theorem resolveVar_data (db : DB) (v : String) : (resolveVar db v).2.data = db.data := by
  simp only [resolveVar]
  split <;> rfl

theorem insertOneRow_ts (ev : List String) (i : Nat) (t : Int) (db : DB)
    (e : String × Int) : (insertOneRow ev i t db e).ts = db.ts := by
  simp [insertOneRow, resolveVar_ts, resolveStats_ts]

theorem insertOneRow_data (ev : List String) (i : Nat) (t : Int) (db : DB)
    (e : String × Int) :
    ∃ row : DataRow, (insertOneRow ev i t db e).data = db.data ++ [row] ∧ row.tsId = i := by
  refine ⟨⟨i, (resolveVar (resolveStats db (parseVarName ev e.1).2).2 (parseVarName ev e.1).1).1,
    (resolveStats db (parseVarName ev e.1).2).1, t, e.2⟩, ?_, rfl⟩
  simp [insertOneRow, resolveVar_data, resolveStats_data]

theorem insertDataRows_shape (ev : List String) (i : Nat) (t : Int) :
    ∀ (es : List (String × Int)) (db : DB),
      (insertDataRows ev i t es db).ts = db.ts ∧
      ∃ rows, (insertDataRows ev i t es db).data = db.data ++ rows ∧
        rows.length = es.length ∧ ∀ r ∈ rows, r.tsId = i
  | [], db => ⟨rfl, [], by simp [insertDataRows], rfl, by simp⟩
  | e :: es, db => by
    have step :
        insertDataRows ev i t (e :: es) db =
          insertDataRows ev i t es (insertOneRow ev i t db e) := rfl
    obtain ⟨hts, rows, hd, hl, hall⟩ := insertDataRows_shape ev i t es (insertOneRow ev i t db e)
    obtain ⟨row, hrow, hrowts⟩ := insertOneRow_data ev i t db e
    rw [step]
    refine ⟨by rw [hts, insertOneRow_ts], row :: rows, ?_, by simp [hl], ?_⟩
    · rw [hd, hrow]
      simp
    · intro r hr
      rcases List.mem_cons.mp hr with rfl | hr
      · exact hrowts
      · exact hall r hr

theorem tsStep_eq_insert {mode m eM lM : Nat} {s : WriterState} {d : Nat}
    (h1 : (sameDateRows s m d).isEmpty = true)
    (h2 : ((s.result.lookup d).isSome || (decide (eM < d) && decide (d < lM))) = true) :
    tsStep mode m eM lM s d =
      { s with db := { s.db with ts := s.db.ts ++ [⟨s.lastTimeSeriesId + 1, m, d⟩] },
               lastTimeSeriesId := s.lastTimeSeriesId + 1,
               currTimeSeriesId := some (s.lastTimeSeriesId + 1) } := by
  unfold tsStep
  rw [h1, h2]
  rfl

theorem tsStep_eq_reuse4 {mode m eM lM : Nat} {s : WriterState} {d : Nat}
    (h1 : (sameDateRows s m d).isEmpty = false) (h4 : (mode == 4) = true) :
    tsStep mode m eM lM s d =
      { s with
        db := { s.db with
                data := s.db.data.filter (fun r => !(r.tsId == lastSameId s m d)) },
        currTimeSeriesId := some (lastSameId s m d) } := by
  unfold tsStep
  rw [h1, h4]
  rfl

theorem tsStep_eq_reuse_not4 {mode m eM lM : Nat} {s : WriterState} {d : Nat}
    (h1 : (sameDateRows s m d).isEmpty = false) (h4 : (mode == 4) = false) :
    tsStep mode m eM lM s d =
      { s with currTimeSeriesId := some (lastSameId s m d) } := by
  unfold tsStep
  rw [h1, h4]
  rfl

theorem tsStep_eq_skip {mode m eM lM : Nat} {s : WriterState} {d : Nat}
    (h1 : (sameDateRows s m d).isEmpty = true)
    (h2 : ((s.result.lookup d).isSome || (decide (eM < d) && decide (d < lM))) = false) :
    tsStep mode m eM lM s d = s := by
  unfold tsStep
  rw [h1, h2]
  rfl

theorem tsStep_result (mode m eM lM : Nat) (s : WriterState) (d : Nat) :
    (tsStep mode m eM lM s d).result = s.result := by
  unfold tsStep
  split
  · rfl
  · split
    · split <;> rfl
    · rfl

theorem tsStep_lastId_mono (mode m eM lM : Nat) (s : WriterState) (d : Nat) :
    s.lastTimeSeriesId ≤ (tsStep mode m eM lM s d).lastTimeSeriesId := by
  unfold tsStep
  split
  · exact Nat.le_succ _
  · split
    · split <;> exact Nat.le_refl _
    · exact Nat.le_refl _

theorem dataStep_of_lookup_none {ev : List String} {s : WriterState} {d : Nat}
    (h : s.result.lookup d = none) : dataStep ev s d = s := by
  unfold dataStep
  rw [h]

theorem dataStep_eq_some {ev : List String} {s : WriterState} {d : Nat}
    {es : List (String × Int)} (h : s.result.lookup d = some es) :
    dataStep ev s d =
      if (es.lookup "img_time").isSome then
        { s with
          db := insertDataRows ev (s.currTimeSeriesId.getD 0)
            ((es.lookup "img_time").getD 0)
            (es.filter (fun e => !(e.1 == "img_time"))) s.db,
          result := updateResult d (es.filter (fun e => !(e.1 == "img_time"))) s.result }
      else
        { s with
          db := insertDataRows ev (s.currTimeSeriesId.getD 0)
            ((es.lookup "img_time").getD 0) es s.db } := by
  unfold dataStep
  rw [h]

theorem dataStep_of_lookup_some {ev : List String} {s : WriterState} {d : Nat}
    {es : List (String × Int)} (h : s.result.lookup d = some es) :
    ∃ rows,
      (dataStep ev s d).db.ts = s.db.ts ∧
      (dataStep ev s d).db.data = s.db.data ++ rows ∧
      rows.length = (es.filter (fun e => !(e.1 == "img_time"))).length ∧
      (∀ r ∈ rows, r.tsId = s.currTimeSeriesId.getD 0) ∧
      (dataStep ev s d).lastTimeSeriesId = s.lastTimeSeriesId ∧
      (dataStep ev s d).currTimeSeriesId = s.currTimeSeriesId := by
  by_cases ht : (es.lookup "img_time").isSome
  · rw [dataStep_eq_some h, if_pos ht]
    obtain ⟨hts, rows, hd, hl, hall⟩ :=
      insertDataRows_shape ev (s.currTimeSeriesId.getD 0) ((es.lookup "img_time").getD 0)
        (es.filter (fun e => !(e.1 == "img_time"))) s.db
    exact ⟨rows, hts, hd, hl, hall, rfl, rfl⟩
  · have hnone : es.lookup "img_time" = none := Option.not_isSome_iff_eq_none.mp ht
    rw [dataStep_eq_some h, if_neg ht]
    obtain ⟨hts, rows, hd, hl, hall⟩ :=
      insertDataRows_shape ev (s.currTimeSeriesId.getD 0) ((es.lookup "img_time").getD 0) es s.db
    refine ⟨rows, hts, hd, ?_, hall, rfl, rfl⟩
    rw [hl, filter_of_lookup_time_none hnone]

theorem dataStep_ts (ev : List String) (s : WriterState) (d : Nat) :
    (dataStep ev s d).db.ts = s.db.ts := by
  cases h : s.result.lookup d with
  | none => rw [dataStep_of_lookup_none h]
  | some es => exact (dataStep_of_lookup_some h).choose_spec.1

theorem dataStep_data_append (ev : List String) (s : WriterState) (d : Nat) :
    ∃ rows, (dataStep ev s d).db.data = s.db.data ++ rows ∧
      ∀ r ∈ rows, r.tsId = s.currTimeSeriesId.getD 0 := by
  cases h : s.result.lookup d with
  | none => exact ⟨[], by rw [dataStep_of_lookup_none h]; simp, by simp⟩
  | some es =>
    obtain ⟨rows, _, hd, _, hall, _, _⟩ := @dataStep_of_lookup_some ev _ _ _ h
    exact ⟨rows, hd, hall⟩

theorem dataStep_lastId (ev : List String) (s : WriterState) (d : Nat) :
    (dataStep ev s d).lastTimeSeriesId = s.lastTimeSeriesId := by
  cases h : s.result.lookup d with
  | none => rw [dataStep_of_lookup_none h]
  | some es => exact (dataStep_of_lookup_some h).choose_spec.2.2.2.2.1

theorem dataStep_result_lookup_isSome (ev : List String) (s : WriterState) (d x : Nat) :
    ((dataStep ev s d).result.lookup x).isSome = (s.result.lookup x).isSome := by
  unfold dataStep
  cases h : s.result.lookup d with
  | none => rfl
  | some es =>
    by_cases ht : (es.lookup "img_time").isSome
    · simp only [ht, if_pos]
      by_cases hx : x = d
      · subst hx
        rw [updateResult_lookup_self, h]
        rfl
      · rw [updateResult_lookup_ne _ _ hx]
    · simp [ht]

theorem dataStep_result_isEmpty (ev : List String) (s : WriterState) (d : Nat) :
    (dataStep ev s d).result.isEmpty = s.result.isEmpty := by
  unfold dataStep
  cases h : s.result.lookup d with
  | none => rfl
  | some es =>
    by_cases ht : (es.lookup "img_time").isSome
    · simp [ht, updateResult_isEmpty]
    · simp [ht]

theorem dataStep_entCountD (ev : List String) (s : WriterState) (d x : Nat) :
    entCountD (dataStep ev s d).result x = entCountD s.result x := by
  unfold dataStep
  cases h : s.result.lookup d with
  | none => rfl
  | some es =>
    by_cases ht : (es.lookup "img_time").isSome
    · simp only [ht, if_pos]
      by_cases hx : x = d
      · subst hx
        unfold entCountD
        rw [updateResult_lookup_self, h]
        simp [filter_self_filter]
      · unfold entCountD
        rw [updateResult_lookup_ne _ _ hx]
    · simp [ht]

theorem writeDate_result_lookup_isSome (ev : List String) (mode m eM lM : Nat)
    (s : WriterState) (d x : Nat) :
    ((writeDate ev mode m eM lM s d).result.lookup x).isSome =
      (s.result.lookup x).isSome := by
  unfold writeDate
  rw [dataStep_result_lookup_isSome, tsStep_result]

theorem writeDate_result_isEmpty (ev : List String) (mode m eM lM : Nat)
    (s : WriterState) (d : Nat) :
    (writeDate ev mode m eM lM s d).result.isEmpty = s.result.isEmpty := by
  unfold writeDate
  rw [dataStep_result_isEmpty, tsStep_result]

theorem writeDate_entCountD (ev : List String) (mode m eM lM : Nat)
    (s : WriterState) (d x : Nat) :
    entCountD (writeDate ev mode m eM lM s d).result x = entCountD s.result x := by
  unfold writeDate
  rw [dataStep_entCountD, tsStep_result]

theorem writeDate_ts_append (ev : List String) (mode m eM lM : Nat)
    (s : WriterState) (d : Nat) :
    ∃ app, (writeDate ev mode m eM lM s d).db.ts = s.db.ts ++ app := by
  unfold writeDate
  rw [dataStep_ts]
  by_cases h1 : (sameDateRows s m d).isEmpty
  · by_cases h2 : ((s.result.lookup d).isSome || (decide (eM < d) && decide (d < lM))) = true
    · rw [tsStep_eq_insert h1 h2]
      exact ⟨_, rfl⟩
    · rw [tsStep_eq_skip h1 (Bool.not_eq_true _ ▸ h2)]
      exact ⟨[], by simp⟩
  · by_cases h4 : (mode == 4) = true
    · rw [tsStep_eq_reuse4 (Bool.not_eq_true _ ▸ h1) h4]
      exact ⟨[], by simp⟩
    · rw [tsStep_eq_reuse_not4 (Bool.not_eq_true _ ▸ h1) (Bool.not_eq_true _ ▸ h4)]
      exact ⟨[], by simp⟩

theorem tsStep_data_not4 {mode : Nat} (m eM lM : Nat) (s : WriterState) (d : Nat)
    (h4 : (mode == 4) = false) :
    (tsStep mode m eM lM s d).db.data = s.db.data := by
  by_cases h1 : (sameDateRows s m d).isEmpty = true
  · by_cases h2 : ((s.result.lookup d).isSome || (decide (eM < d) && decide (d < lM))) = true
    · rw [tsStep_eq_insert h1 h2]
    · rw [tsStep_eq_skip h1 (Bool.not_eq_true _ ▸ h2)]
  · rw [tsStep_eq_reuse_not4 (Bool.not_eq_true _ ▸ h1) h4]

theorem writeDate_data_append_not4 (ev : List String) {mode : Nat} (m eM lM : Nat)
    (s : WriterState) (d : Nat) (h4 : (mode == 4) = false) :
    ∃ rows, (writeDate ev mode m eM lM s d).db.data = s.db.data ++ rows := by
  unfold writeDate
  obtain ⟨rows, hd, _⟩ := dataStep_data_append ev (tsStep mode m eM lM s d) d
  exact ⟨rows, by rw [hd, tsStep_data_not4 m eM lM s d h4]⟩

theorem foldl_ts_append {α : Type _} (f : WriterState → α → WriterState)
    (h : ∀ s a, ∃ app, (f s a).db.ts = s.db.ts ++ app) :
    ∀ (l : List α) (s : WriterState), ∃ app, (l.foldl f s).db.ts = s.db.ts ++ app
  | [], s => ⟨[], by simp⟩
  | a :: l, s => by
    obtain ⟨app1, h1⟩ := h s a
    obtain ⟨app2, h2⟩ := foldl_ts_append f h l (f s a)
    exact ⟨app1 ++ app2, by rw [List.foldl_cons, h2, h1, List.append_assoc]⟩

theorem foldl_data_append {α : Type _} (f : WriterState → α → WriterState)
    (h : ∀ s a, ∃ app, (f s a).db.data = s.db.data ++ app) :
    ∀ (l : List α) (s : WriterState), ∃ app, (l.foldl f s).db.data = s.db.data ++ app
  | [], s => ⟨[], by simp⟩
  | a :: l, s => by
    obtain ⟨app1, h1⟩ := h s a
    obtain ⟨app2, h2⟩ := foldl_data_append f h l (f s a)
    exact ⟨app1 ++ app2, by rw [List.foldl_cons, h2, h1, List.append_assoc]⟩

theorem foldl_db_data_append {α : Type _} (f : DB → α → DB)
    (h : ∀ db a, ∃ new, (f db a).data = db.data ++ new) :
    ∀ (l : List α) (db : DB), ∃ new, (l.foldl f db).data = db.data ++ new
  | [], db => ⟨[], by simp⟩
  | a :: l, db => by
    obtain ⟨app1, h1⟩ := h db a
    obtain ⟨app2, h2⟩ := foldl_db_data_append f h l (f db a)
    exact ⟨app1 ++ app2, by rw [List.foldl_cons, h2, h1, List.append_assoc]⟩

theorem writeMember_ts_append (ev : List String) (mode startTs : Nat)
    (earliest latest : Nat → Nat) (batch : List Nat) (s : WriterState) (m : Nat) :
    ∃ app, (writeMember ev mode startTs earliest latest batch s m).db.ts = s.db.ts ++ app := by
  unfold writeMember
  split
  · exact ⟨[], by simp⟩
  · exact foldl_ts_append _ (fun s d => writeDate_ts_append ev mode m _ _ s d) batch s

theorem writeMember_data_append_not4 (ev : List String) {mode : Nat} (startTs : Nat)
    (earliest latest : Nat → Nat) (batch : List Nat) (s : WriterState) (m : Nat)
    (h4 : (mode == 4) = false) :
    ∃ rows, (writeMember ev mode startTs earliest latest batch s m).db.data
      = s.db.data ++ rows := by
  unfold writeMember
  split
  · exact ⟨[], by simp⟩
  · exact foldl_data_append _ (fun s d => writeDate_data_append_not4 ev m _ _ s d h4) batch s

theorem writeBatch_ts_append (ev : List String) (mode startTs : Nat) (members : List Nat)
    (earliest latest : Nat → Nat) (batch : List Nat) (result : ResultMap) (db : DB) :
    ∃ app, (writeBatch ev mode startTs members earliest latest batch result db).ts
      = db.ts ++ app := by
  unfold writeBatch
  exact foldl_ts_append _
    (fun s m => writeMember_ts_append ev mode startTs earliest latest batch s m) members _

theorem writeBatch_data_append_not4 (ev : List String) {mode : Nat} (startTs : Nat)
    (members : List Nat) (earliest latest : Nat → Nat) (batch : List Nat)
    (result : ResultMap) (db : DB) (h4 : (mode == 4) = false) :
    ∃ rows, (writeBatch ev mode startTs members earliest latest batch result db).data
      = db.data ++ rows := by
  unfold writeBatch
  exact foldl_data_append _
    (fun s m => writeMember_data_append_not4 ev startTs earliest latest batch s m h4) members _

/-! ### C10: no DATA deletion in update mode -/

/-- C10: in update mode (3) the Persistence Writer never deletes DATA rows:
the DELETE is guarded by mode 4, so a whole update-mode run only ever
appends to the DATA table and every pre-existing row survives unchanged, in
place. -/
theorem claim10_update_mode_only_inserts_data (p : Provider) (ev : List String)
    (members : List Nat) (startDate endDate nSimImgs : Nat) (db : DB) :
    ∃ inserted, (runGroup p ev 3 members startDate endDate nSimImgs db).data
      = db.data ++ inserted := by
  unfold runGroup
  exact foldl_db_data_append _
    (fun db2 batch =>
      writeBatch_data_append_not4 ev startDate members _ _ batch (resultFor p batch) db2
        (by decide)) _ db

/-! ### C9: at most one TIMESERIES record per (demand, date) -/

theorem tsStep_atMostOne (mode m eM lM : Nat) (s : WriterState) (d : Nat)
    (h : atMostOnePerKey s.db.ts) :
    atMostOnePerKey (tsStep mode m eM lM s d).db.ts := by
  by_cases h1 : (sameDateRows s m d).isEmpty = true
  · by_cases h2 : ((s.result.lookup d).isSome || (decide (eM < d) && decide (d < lM))) = true
    · rw [tsStep_eq_insert h1 h2]
      intro m2 d2
      show (List.filter _ (s.db.ts ++ [⟨s.lastTimeSeriesId + 1, m, d⟩])).length ≤ 1
      rw [List.filter_append, List.length_append]
      by_cases hp : ((d == d2) && (m == m2)) = true
      · rw [Bool.and_eq_true] at hp
        obtain ⟨hd2, hm2⟩ := hp
        have hd2 : d = d2 := beq_iff_eq.mp hd2
        have hm2 : m = m2 := beq_iff_eq.mp hm2
        subst hd2; subst hm2
        have hempty : s.db.ts.filter (fun r => (r.date == d) && (r.demandId == m)) = [] :=
          List.isEmpty_iff.mp h1
        rw [hempty]
        simpa using (List.length_filter_le _ [(⟨s.lastTimeSeriesId + 1, m, d⟩ : TSRow)]).trans
          (by simp)
      · have hrow : (List.filter (fun r => (r.date == d2) && (r.demandId == m2))
            [(⟨s.lastTimeSeriesId + 1, m, d⟩ : TSRow)]).length = 0 := by
          simp only [List.filter, List.length_nil]
          cases hq : ((d == d2) && (m == m2)) with
          | true => exact absurd hq hp
          | false => simpa [hq] using rfl
        rw [hrow]
        simpa using h m2 d2
    · rw [tsStep_eq_skip h1 (Bool.not_eq_true _ ▸ h2)]
      exact h
  · by_cases h4 : (mode == 4) = true
    · rw [tsStep_eq_reuse4 (Bool.not_eq_true _ ▸ h1) h4]
      exact h
    · rw [tsStep_eq_reuse_not4 (Bool.not_eq_true _ ▸ h1) (Bool.not_eq_true _ ▸ h4)]
      exact h

theorem writeDate_atMostOne (ev : List String) (mode m eM lM : Nat) (s : WriterState)
    (d : Nat) (h : atMostOnePerKey s.db.ts) :
    atMostOnePerKey (writeDate ev mode m eM lM s d).db.ts := by
  unfold writeDate
  rw [show (dataStep ev (tsStep mode m eM lM s d) d).db.ts
      = (tsStep mode m eM lM s d).db.ts from dataStep_ts ev _ d]
  exact tsStep_atMostOne mode m eM lM s d h

theorem writeMember_atMostOne (ev : List String) (mode startTs : Nat)
    (earliest latest : Nat → Nat) (batch : List Nat) (s : WriterState) (m : Nat)
    (h : atMostOnePerKey s.db.ts) :
    atMostOnePerKey (writeMember ev mode startTs earliest latest batch s m).db.ts := by
  unfold writeMember
  split
  · exact h
  · exact foldl_pres (fun s => atMostOnePerKey s.db.ts) _
      (fun s d => writeDate_atMostOne ev mode m _ _ s d) batch s h

/-- C9: the Persistence Writer preserves the invariant that at most one
TIMESERIES record exists per (demand, date): it checks its in-memory view
for an existing record and inserts only when none is found, reusing the
last matching id otherwise. -/
theorem claim9_at_most_one_record_per_key (ev : List String) (mode startTs : Nat)
    (members : List Nat) (earliest latest : Nat → Nat) (batch : List Nat)
    (result : ResultMap) (db : DB) (h : atMostOnePerKey db.ts) :
    atMostOnePerKey (writeBatch ev mode startTs members earliest latest batch result db).ts := by
  unfold writeBatch
  refine foldl_pres (fun s => atMostOnePerKey s.db.ts) _
    (fun s m => writeMember_atMostOne ev mode startTs earliest latest batch s m) members _ ?_
  exact h

/-- Witness for C9: a concrete overwrite-mode batch over a store that
already holds a record for (demand 1, date 1). -/
theorem claim9_at_most_one_record_per_key_witness :
    atMostOnePerKey (writeBatch [] 4 0 [1, 2] (fun _ => 0) (fun _ => 9) [1, 2]
      [(1, [("red", 7)])] ⟨[⟨5, 1, 1⟩], [⟨5, 1, 1, 0, 3⟩], [(1, "red")], [(1, "none")]⟩).ts :=
  claim9_at_most_one_record_per_key [] 4 0 [1, 2] (fun _ => 0) (fun _ => 9) [1, 2]
    [(1, [("red", 7)])] ⟨[⟨5, 1, 1⟩], [⟨5, 1, 1, 0, 3⟩], [(1, "red")], [(1, "none")]⟩
    (fun m d => (List.length_filter_le _ _).trans (Nat.le_refl 1))

/-! ### C8: transient status overrides -/

theorem sameGroupKey_self (a : DemandRec) : sameGroupKey a a = true := by
  simp [sameGroupKey]

theorem setStatus_lookup_self (x v : Nat) :
    ∀ (sts : List (Nat × Nat)),
      (setStatus sts x v).lookup x = (sts.lookup x).map (fun _ => v)
  | [] => rfl
  | (k, w) :: sts => by
    rw [show setStatus ((k, w) :: sts) x v =
        (if k == x then (k, v) else (k, w)) :: setStatus sts x v from rfl]
    by_cases hk : (k == x) = true
    · rw [if_pos hk]
      have hxk : (x == k) = true := beq_iff_eq.mpr (beq_iff_eq.mp hk).symm
      rw [List.lookup_cons, List.lookup_cons]
      simp only [hxk]
      rfl
    · rw [if_neg hk]
      have hxk : (x == k) = false := by
        cases hq : x == k
        · rfl
        · exact absurd (beq_iff_eq.mpr (beq_iff_eq.mp hq).symm) hk
      rw [List.lookup_cons, List.lookup_cons]
      simp only [hxk]
      exact setStatus_lookup_self x v sts

theorem setStatus_lookup_ne {x y : Nat} (v : Nat) :
    ∀ (sts : List (Nat × Nat)), ¬(y = x) →
      (setStatus sts x v).lookup y = sts.lookup y
  | [], _ => rfl
  | (k, w) :: sts, h => by
    rw [show setStatus ((k, w) :: sts) x v =
        (if k == x then (k, v) else (k, w)) :: setStatus sts x v from rfl]
    by_cases hk : (k == x) = true
    · rw [if_pos hk]
      have hyk : (y == k) = false := by
        cases hq : y == k
        · rfl
        · exact absurd ((beq_iff_eq.mp hk) ▸ beq_iff_eq.mp hq) h
      rw [List.lookup_cons, List.lookup_cons]
      simp only [hyk]
      exact setStatus_lookup_ne v sts h
    · rw [if_neg hk]
      rw [List.lookup_cons, List.lookup_cons]
      cases hy : (y == k) with
      | false =>
        simp only []
        exact setStatus_lookup_ne v sts h
      | true => rfl

theorem lookup_isSome_of_key_mem {x : Nat} :
    ∀ {sts : List (Nat × Nat)}, (∃ p ∈ sts, p.1 = x) → ((sts.lookup x).isSome = true)
  | [], h => absurd h (by simp)
  | (k, w) :: sts, h => by
    rw [List.lookup_cons]
    cases hk : (x == k) with
    | true => rfl
    | false =>
      rcases h with ⟨p, hp, hpx⟩
      rcases List.mem_cons.mp hp with rfl | hp
      · have hxk : (x == k) = true := beq_iff_eq.mpr (by simpa using hpx.symm)
        exact absurd hxk (by simp [hk])
      · simp only []
        exact lookup_isSome_of_key_mem ⟨p, hp, hpx⟩

theorem setStatus_one_pres {x : Nat} (i1 : Nat) (sts : List (Nat × Nat))
    (h : sts.lookup x = some 1) : (setStatus sts i1 1).lookup x = some 1 := by
  by_cases hx : x = i1
  · subst hx
    rw [setStatus_lookup_self, h]
    rfl
  · rw [setStatus_lookup_ne 1 sts hx]
    exact h

theorem demandStep_events_append (running : Nat) (all : List DemandRec) (st : LoopState)
    (j : Nat) : ∃ app, (demandStep running all st j).events = st.events ++ app := by
  simp only [demandStep]
  split
  · exact ⟨[], by simp⟩
  · split
    · exact ⟨[], by simp⟩
    · next dj _ =>
      by_cases hs : 1 < dj.status
      · simp only [if_pos hs]
        split <;> split <;> exact ⟨_, List.append_assoc _ _ _⟩
      · simp only [if_neg hs]
        split <;> split <;> exact ⟨_, rfl⟩

theorem demandStep_status_one (running : Nat) (all : List DemandRec) (x j : Nat)
    (st : LoopState) (h : st.statuses.lookup x = some 1) :
    (demandStep running all st j).statuses.lookup x = some 1 := by
  simp only [demandStep]
  split
  · exact h
  · split
    · exact h
    · next dj _ =>
      by_cases hs : 1 < dj.status
      · simp only [if_pos hs]
        split <;> split <;> exact setStatus_one_pres _ _ h
      · simp only [if_neg hs]
        split <;> split <;> exact h

theorem demandStep_status_isSome (running : Nat) (all : List DemandRec) (x j : Nat)
    (st : LoopState) (h : (st.statuses.lookup x).isSome = true) :
    ((demandStep running all st j).statuses.lookup x).isSome = true := by
  have key : ∀ (i1 : Nat), ((setStatus st.statuses i1 1).lookup x).isSome = true := by
    intro i1
    by_cases hx : x = i1
    · subst hx
      rw [setStatus_lookup_self]
      cases hq : st.statuses.lookup x with
      | none => rw [hq] at h; exact absurd h (by simp)
      | some w => rfl
    · rw [setStatus_lookup_ne 1 st.statuses hx]
      exact h
  simp only [demandStep]
  split
  · exact h
  · split
    · exact h
    · next dj _ =>
      by_cases hs : 1 < dj.status
      · simp only [if_pos hs]
        split <;> split <;> exact key _
      · simp only [if_neg hs]
        split <;> split <;> exact h

theorem foldl_events_append (f : LoopState → Nat → LoopState)
    (h : ∀ st j, ∃ app, (f st j).events = st.events ++ app) :
    ∀ (l : List Nat) (st : LoopState), ∃ app, (l.foldl f st).events = st.events ++ app
  | [], st => ⟨[], by simp⟩
  | j :: l, st => by
    obtain ⟨app1, h1⟩ := h st j
    obtain ⟨app2, h2⟩ := foldl_events_append f h l (f st j)
    exact ⟨app1 ++ app2, by rw [List.foldl_cons, h2, h1, List.append_assoc]⟩

theorem range_split {n i : Nat} (h : i < n) :
    List.range n = List.range i ++ i :: List.range' (i + 1) (n - (i + 1)) := by
  rw [List.range_eq_range', List.range_eq_range']
  have h1 : List.range' 0 i ++ List.range' (0 + i) (n - i) = List.range' 0 ((n - i) + i) :=
    List.range'_append_1 0 i (n - i)
  have h2 : (n - i) + i = n := by omega
  have h3 : n - i = (n - (i + 1)) + 1 := by omega
  rw [h2] at h1
  rw [← h1]
  congr 1
  rw [h3, List.range'_succ]
  simp

theorem demandStep_at_override (running : Nat) (all : List DemandRec) (st : LoopState)
    (i : Nat) (d : DemandRec) (hc : st.processed.contains i = false)
    (hi : all[i]? = some d) (hlen : i < all.length)
    (hst : d.status = 3 ∨ d.status = 4 ∨ d.status = 5) :
    ∃ ids, d.id ∈ ids ∧
      (demandStep running all st i).statuses = setStatus st.statuses d.id 1 ∧
      (demandStep running all st i).events =
        st.events ++ [DemandEvent.statusReset d.id, DemandEvent.retrieve ids d.status] := by
  have hgrp : d.id ∈ (List.filter
      (fun j => match all[j]? with | some dj => sameGroupKey d dj | none => false)
      (List.range all.length)).filterMap (fun j => (all[j]?).map (fun dj => dj.id)) := by
    apply List.mem_filterMap.mpr
    refine ⟨i, List.mem_filter.mpr ⟨List.mem_range.mpr hlen, ?_⟩, ?_⟩
    · rw [hi]
      exact sameGroupKey_self d
    · rw [hi]
      rfl
  have hc2 : i ∉ st.processed := by simpa using hc
  rcases hst with h | h | h
  · refine ⟨_, hgrp, ?_, ?_⟩ <;> simp [demandStep, hc, hc2, hi, h]
  · refine ⟨_, hgrp, ?_, ?_⟩ <;> simp [demandStep, hc, hc2, hi, h]
  · refine ⟨[d.id], List.mem_singleton.mpr rfl, ?_, ?_⟩ <;> simp [demandStep, hc, hc2, hi, h]

/-- Counterexample to C8 as stated: two demands with identical retrieval
keys, the second carrying override status 4.  The first demand leads the
group, so the second is absorbed as a member: after the run its stored
status is still 4 (not reset to the standing value 1), no status-reset was
committed for it, and the group's retrieval ran under mode 3 rather than
its override 4. -/
theorem claim8_as_stated_counterexample :
    (demandLoop 3 [⟨1, 10, 1, 100, 7, 2, 1, 0, 500, ""⟩,
        ⟨2, 10, 4, 100, 7, 2, 1, 0, 500, ""⟩]).statuses.lookup 2 = some 4 ∧
    DemandEvent.statusReset 2 ∉ (demandLoop 3 [⟨1, 10, 1, 100, 7, 2, 1, 0, 500, ""⟩,
        ⟨2, 10, 4, 100, 7, 2, 1, 0, 500, ""⟩]).events ∧
    (demandLoop 3 [⟨1, 10, 1, 100, 7, 2, 1, 0, 500, ""⟩,
        ⟨2, 10, 4, 100, 7, 2, 1, 0, 500, ""⟩]).events =
      [DemandEvent.retrieve [1, 2] 3] := by
  decide

/-- C8 (amended): a demand with transient override status 3, 4 or 5 that is
*not absorbed into an earlier demand's group* (it is still unprocessed when
its row is reached) has its override applied as the effective mode of its
processing and its stored status reset to 1 — and the reset event strictly
precedes the processing event; after the full run its stored status is 1.
A demand grouped under an earlier leader keeps its stored override and is
processed under the leader's mode. -/
theorem claim8_override_reset_for_group_leader (running : Nat) (all : List DemandRec)
    (i : Nat) (d : DemandRec)
    (hi : all[i]? = some d)
    (hst : d.status = 3 ∨ d.status = 4 ∨ d.status = 5)
    (hnp : ((List.range i).foldl (demandStep running all)
        { processed := [], statuses := all.map (fun x => (x.id, x.status)), events := [] }
      ).processed.contains i = false) :
    (demandLoop running all).statuses.lookup d.id = some 1 ∧
    ∃ (k l : Nat) (ids : List Nat), k < l ∧ d.id ∈ ids ∧
      (demandLoop running all).events[k]? = some (DemandEvent.statusReset d.id) ∧
      (demandLoop running all).events[l]? = some (DemandEvent.retrieve ids d.status) := by
  have hlen : i < all.length := by
    by_contra hge
    rw [List.getElem?_eq_none (by omega)] at hi
    cases hi
  have hsplit := range_split hlen
  have hloop : demandLoop running all =
      (List.range' (i + 1) (all.length - (i + 1))).foldl (demandStep running all)
        (demandStep running all
          ((List.range i).foldl (demandStep running all)
            { processed := [], statuses := all.map (fun x => (x.id, x.status)), events := [] })
          i) := by
    rw [demandLoop, hsplit, List.foldl_append, List.foldl_cons]
  obtain ⟨ids, hmem, hsts, hevs⟩ := demandStep_at_override running all
    ((List.range i).foldl (demandStep running all)
      { processed := [], statuses := all.map (fun x => (x.id, x.status)), events := [] })
    i d hnp hi hlen hst
  constructor
  · rw [hloop]
    apply foldl_pres (fun st => st.statuses.lookup d.id = some 1) _
      (fun st j hj => demandStep_status_one running all d.id j st hj)
    rw [hsts]
    have hkey : ((((List.range i).foldl (demandStep running all)
        { processed := [], statuses := all.map (fun x => (x.id, x.status)), events := [] }
      ).statuses.lookup d.id).isSome = true) := by
      apply foldl_pres (fun st => ((st.statuses.lookup d.id).isSome = true)) _
        (fun st j hj => demandStep_status_isSome running all d.id j st hj)
      apply lookup_isSome_of_key_mem
      refine ⟨(d.id, d.status), ?_, rfl⟩
      exact List.mem_map.mpr ⟨d, List.getElem?_mem hi, rfl⟩
    rw [setStatus_lookup_self]
    cases hq : ((List.range i).foldl (demandStep running all)
        { processed := [], statuses := all.map (fun x => (x.id, x.status)), events := [] }
      ).statuses.lookup d.id with
    | none => rw [hq] at hkey; exact absurd hkey (by simp)
    | some w => rfl
  · rw [hloop]
    obtain ⟨app, happ⟩ := foldl_events_append (demandStep running all)
      (fun st j => demandStep_events_append running all st j)
      (List.range' (i + 1) (all.length - (i + 1)))
      (demandStep running all
        ((List.range i).foldl (demandStep running all)
          { processed := [], statuses := all.map (fun x => (x.id, x.status)), events := [] })
        i)
    refine ⟨((List.range i).foldl (demandStep running all)
        { processed := [], statuses := all.map (fun x => (x.id, x.status)), events := [] }
      ).events.length,
      _ + 1, ids, Nat.lt_succ_self _, hmem, ?_, ?_⟩
    · rw [happ, hevs, List.append_assoc, List.getElem?_append_right (Nat.le_refl _)]
      simp
    · rw [happ, hevs, List.append_assoc, List.getElem?_append_right (by omega)]
      simp

/-- Witness for C8 at a concrete catalog: the demand with override status 4
leads its own group, its status is reset to 1 before the retrieval event,
and the retrieval runs under mode 4. -/
theorem claim8_override_reset_for_group_leader_witness :
    (demandLoop 3 [⟨2, 10, 4, 100, 7, 2, 1, 0, 500, ""⟩,
        ⟨1, 10, 1, 100, 7, 2, 1, 0, 500, ""⟩]).statuses.lookup 2 = some 1 ∧
    ∃ (k l : Nat) (ids : List Nat), k < l ∧ (2 : Nat) ∈ ids ∧
      (demandLoop 3 [⟨2, 10, 4, 100, 7, 2, 1, 0, 500, ""⟩,
          ⟨1, 10, 1, 100, 7, 2, 1, 0, 500, ""⟩]).events[k]? =
        some (DemandEvent.statusReset 2) ∧
      (demandLoop 3 [⟨2, 10, 4, 100, 7, 2, 1, 0, 500, ""⟩,
          ⟨1, 10, 1, 100, 7, 2, 1, 0, 500, ""⟩]).events[l]? =
        some (DemandEvent.retrieve ids 4) :=
  claim8_override_reset_for_group_leader 3
    [⟨2, 10, 4, 100, 7, 2, 1, 0, 500, ""⟩, ⟨1, 10, 1, 100, 7, 2, 1, 0, 500, ""⟩]
    0 ⟨2, 10, 4, 100, 7, 2, 1, 0, 500, ""⟩ rfl (Or.inr (Or.inl rfl)) (by decide)

/-! ### C1: idempotence of update mode -/

theorem memberHas_of_append {ts app : List TSRow} {m d : Nat}
    (h : memberHas ts m d) : memberHas (ts ++ app) m d := by
  obtain ⟨r, hr, hk⟩ := h
  exact ⟨r, List.mem_append_left app hr, hk⟩

theorem runGroup_eq (p : Provider) (ev : List String) (mode : Nat) (members : List Nat)
    (s e n : Nat) (db : DB) :
    runGroup p ev mode members s e n db =
      (if ((dateListFor mode members db.ts (spanOf s e)).filter
            (fun d => p.available.contains d)).length == 0 then ([] : List (List Nat))
       else
        buildGroups
          ((dateListFor mode members db.ts (spanOf s e)).filter
            (fun d => p.available.contains d)) n
          (ceilOfDiv
            ((dateListFor mode members db.ts (spanOf s e)).filter
              (fun d => p.available.contains d)).length n)
          (dateListFor mode members db.ts (spanOf s e))).foldl
        (fun acc batch =>
          writeBatch ev mode s members (earliestRec db.ts s) (latestRec db.ts s)
            batch (resultFor p batch) acc) db := rfl

theorem resultFor_lookup_isSome {p : Provider} {d : Nat} :
    ∀ {batch : List Nat}, d ∈ batch → p.available.contains d = true →
      ((resultFor p batch).lookup d).isSome = true
  | [], hd, _ => absurd hd (List.not_mem_nil d)
  | b :: bs, hd, ha => by
    unfold resultFor
    rw [List.filterMap_cons]
    rcases List.mem_cons.mp hd with rfl | hd2
    · rw [if_pos ha]
      simp [List.lookup_cons]
    · by_cases hb : p.available.contains b = true
      · rw [if_pos hb]
        show (List.lookup d ((b, p.values b) :: List.filterMap
          (fun x => if p.available.contains x then some (x, p.values x) else none)
            bs)).isSome = true
        rw [List.lookup_cons]
        cases hq : (d == b) with
        | true => rfl
        | false => exact resultFor_lookup_isSome hd2 ha
      · rw [if_neg hb]
        show (List.lookup d (List.filterMap
          (fun x => if p.available.contains x then some (x, p.values x) else none)
            bs)).isSome = true
        exact resultFor_lookup_isSome hd2 ha

theorem writeDate_memberHas_self (ev : List String) (mode m eM lM : Nat)
    (s : WriterState) (d : Nat) (h : (s.result.lookup d).isSome = true) :
    memberHas (writeDate ev mode m eM lM s d).db.ts m d := by
  unfold writeDate
  rw [show (dataStep ev (tsStep mode m eM lM s d) d).db.ts
      = (tsStep mode m eM lM s d).db.ts from dataStep_ts ev _ d]
  by_cases h1 : (sameDateRows s m d).isEmpty = true
  · have h2 : ((s.result.lookup d).isSome || (decide (eM < d) && decide (d < lM))) = true := by
      rw [h]
      rfl
    rw [tsStep_eq_insert h1 h2]
    exact ⟨⟨s.lastTimeSeriesId + 1, m, d⟩, by simp, rfl, rfl⟩
  · have h1ne : sameDateRows s m d ≠ [] := by
      intro hnil
      rw [hnil] at h1
      exact h1 rfl
    obtain ⟨r, hr⟩ := List.exists_mem_of_ne_nil _ h1ne
    have hr2 := List.mem_filter.mp hr
    rw [Bool.and_eq_true] at hr2
    have hhas : memberHas s.db.ts m d :=
      ⟨r, hr2.1, beq_iff_eq.mp hr2.2.2, beq_iff_eq.mp hr2.2.1⟩
    by_cases h4 : (mode == 4) = true
    · rw [tsStep_eq_reuse4 (Bool.not_eq_true _ ▸ h1) h4]
      exact hhas
    · rw [tsStep_eq_reuse_not4 (Bool.not_eq_true _ ▸ h1) (Bool.not_eq_true _ ▸ h4)]
      exact hhas

theorem writeDate_memberHas_mono (ev : List String) (mode m2 eM lM : Nat)
    (s : WriterState) (d2 : Nat) {m d : Nat} (h : memberHas s.db.ts m d) :
    memberHas (writeDate ev mode m2 eM lM s d2).db.ts m d := by
  obtain ⟨app, happ⟩ := writeDate_ts_append ev mode m2 eM lM s d2
  rw [happ]
  exact memberHas_of_append h

theorem writeMember_memberHas (ev : List String) (mode startTs : Nat)
    (earliest latest : Nat → Nat) (batch : List Nat) (s : WriterState) (m d : Nat)
    (hd : d ∈ batch) (h : (s.result.lookup d).isSome = true) :
    memberHas (writeMember ev mode startTs earliest latest batch s m).db.ts m d := by
  unfold writeMember
  have hne : s.result.isEmpty = false := by
    cases hr : s.result with
    | nil => rw [hr] at h; exact absurd h (by simp [List.lookup])
    | cons x r => rfl
  rw [if_neg (by simp [hne])]
  obtain ⟨b1, b2, hb⟩ := List.append_of_mem hd
  subst hb
  rw [List.foldl_append, List.foldl_cons]
  have hsome1 : (((b1.foldl (writeDate ev mode m (earliest m) (latest m)) s)
      ).result.lookup d).isSome = true :=
    foldl_pres (fun s2 => ((s2.result.lookup d).isSome = true)) _
      (fun s2 a h2 => by
        show ((writeDate ev mode m (earliest m) (latest m) s2 a).result.lookup d).isSome
          = true
        rw [writeDate_result_lookup_isSome]
        exact h2) b1 s h
  have hhas := writeDate_memberHas_self ev mode m (earliest m) (latest m) _ d hsome1
  exact foldl_pres (fun s2 => memberHas s2.db.ts m d) _
    (fun s2 a h2 => writeDate_memberHas_mono ev mode m (earliest m) (latest m) s2 a h2)
    b2 _ hhas

theorem writeMember_result_isSome_pres (ev : List String) (mode startTs : Nat)
    (earliest latest : Nat → Nat) (batch : List Nat) (s : WriterState) (m x : Nat)
    (h : (s.result.lookup x).isSome = true) :
    ((writeMember ev mode startTs earliest latest batch s m).result.lookup x).isSome
      = true := by
  unfold writeMember
  split
  · exact h
  · exact foldl_pres (fun s2 => ((s2.result.lookup x).isSome = true)) _
      (fun s2 a h2 => by
        show ((writeDate ev mode m (earliest m) (latest m) s2 a).result.lookup x).isSome
          = true
        rw [writeDate_result_lookup_isSome]
        exact h2) batch s h

theorem writeMember_memberHas_mono (ev : List String) (mode startTs : Nat)
    (earliest latest : Nat → Nat) (batch : List Nat) (s : WriterState) (m2 : Nat)
    {m d : Nat} (h : memberHas s.db.ts m d) :
    memberHas (writeMember ev mode startTs earliest latest batch s m2).db.ts m d := by
  obtain ⟨app, happ⟩ := writeMember_ts_append ev mode startTs earliest latest batch s m2
  rw [happ]
  exact memberHas_of_append h

theorem writeBatch_memberHas (ev : List String) (mode startTs : Nat) (members : List Nat)
    (earliest latest : Nat → Nat) (batch : List Nat) (result : ResultMap) (db : DB)
    (m d : Nat) (hm : m ∈ members) (hd : d ∈ batch)
    (h : (result.lookup d).isSome = true) :
    memberHas (writeBatch ev mode startTs members earliest latest batch result db).ts m d := by
  obtain ⟨l1, l2, hl⟩ := List.append_of_mem hm
  subst hl
  show memberHas ((List.foldl (writeMember ev mode startTs earliest latest batch)
    { db := db, lastTimeSeriesId := (db.ts.map (fun r => r.id)).foldl max 0,
      currTimeSeriesId := none, result := result } (l1 ++ m :: l2)).db).ts m d
  rw [List.foldl_append, List.foldl_cons]
  have hsome1 : (((l1.foldl (writeMember ev mode startTs earliest latest batch)
      { db := db, lastTimeSeriesId := (db.ts.map (fun r => r.id)).foldl max 0,
        currTimeSeriesId := none, result := result })).result.lookup d).isSome = true :=
    foldl_pres (fun s2 => ((s2.result.lookup d).isSome = true)) _
      (fun s2 m2 h2 => writeMember_result_isSome_pres ev mode startTs earliest latest
        batch s2 m2 d h2) l1 _ h
  have hhas := writeMember_memberHas ev mode startTs earliest latest batch _ m d hd hsome1
  exact foldl_pres (fun s2 => memberHas s2.db.ts m d) _
    (fun s2 m2 h2 => writeMember_memberHas_mono ev mode startTs earliest latest batch
      s2 m2 h2) l2 _ hhas

theorem writeBatch_memberHas_mono (ev : List String) (mode startTs : Nat)
    (members : List Nat) (earliest latest : Nat → Nat) (batch : List Nat)
    (result : ResultMap) (db : DB) {m d : Nat} (h : memberHas db.ts m d) :
    memberHas (writeBatch ev mode startTs members earliest latest batch result db).ts m d := by
  obtain ⟨app, happ⟩ := writeBatch_ts_append ev mode startTs members earliest latest
    batch result db
  rw [happ]
  exact memberHas_of_append h

theorem countAvail_filter_self (avail dateList : List Nat) :
    countAvail (dateList.filter (fun d => avail.contains d)) dateList
      = (dateList.filter (fun d => avail.contains d)).length := by
  unfold countAvail
  congr 1
  apply List.filter_congr
  intro x hx
  cases hq : avail.contains x with
  | true =>
    exact List.elem_eq_true_of_mem (List.mem_filter.mpr ⟨hx, hq⟩)
  | false =>
    cases hc : (dateList.filter (fun d => avail.contains d)).contains x with
    | false => rfl
    | true =>
      have hmem := List.mem_filter.mp (List.mem_of_elem_eq_true hc)
      rw [hq] at hmem
      exact absurd hmem.2 (by simp)

theorem d_in_some_batch {filtered dateList : List Nat} {n d : Nat} (hn : 1 ≤ n)
    (hfd : d ∈ dateList) (hdf : d ∈ filtered)
    (hcnt : countAvail filtered dateList ≤ ceilOfDiv filtered.length n * n) :
    ∃ batch ∈ buildGroups filtered n (ceilOfDiv filtered.length n) dateList,
      d ∈ batch := by
  obtain ⟨rem, hsplit, hcount⟩ :=
    buildGroups_flatten filtered n (ceilOfDiv filtered.length n) dateList
  have hrem0 : countAvail filtered rem = 0 := by
    rw [hcount]
    omega
  rw [← hsplit] at hfd
  rcases List.mem_append.mp hfd with hin | hin
  · obtain ⟨batch, hbm, hdm⟩ := List.mem_flatten.mp hin
    exact ⟨batch, hbm, hdm⟩
  · exfalso
    have : d ∈ rem.filter (fun x => filtered.contains x) :=
      List.mem_filter.mpr ⟨hin, by simpa using hdf⟩
    have hpos : 0 < countAvail filtered rem := by
      unfold countAvail
      exact List.length_pos.mpr (List.ne_nil_of_mem this)
    omega

theorem runGroup_covers (p : Provider) (ev : List String) (members : List Nat)
    (s e n : Nat) (db : DB) (hn : 1 ≤ n) (m d : Nat)
    (hm : m ∈ members) (hspan : d ∈ spanOf s e) (ha : p.available.contains d = true) :
    memberHas (runGroup p ev 3 members s e n db).ts m d := by
  by_cases hall : ∀ m2 ∈ members, memberHas db.ts m2 d
  · rw [runGroup_eq]
    exact foldl_pres (fun db2 : DB => memberHas db2.ts m d) _
      (fun db2 batch h2 => writeBatch_memberHas_mono ev 3 s members _ _ batch
        (resultFor p batch) db2 h2) _ db (hall m hm)
  · push_neg at hall
    obtain ⟨m2, hm2, hnot⟩ := hall
    have hdl : d ∈ dateListFor 3 members db.ts (spanOf s e) :=
      (claim2_update_pending _ _ _ d).mpr ⟨hspan, m2, hm2, fun hh => hnot hh⟩
    have hdf : d ∈ (dateListFor 3 members db.ts (spanOf s e)).filter
        (fun x => p.available.contains x) := List.mem_filter.mpr ⟨hdl, ha⟩
    have hflen : (((dateListFor 3 members db.ts (spanOf s e)).filter
        (fun x => p.available.contains x)).length == 0) = false := by
      have := List.length_pos.mpr (List.ne_nil_of_mem hdf)
      cases hq : (((dateListFor 3 members db.ts (spanOf s e)).filter
          (fun x => p.available.contains x)).length == 0) with
      | false => rfl
      | true =>
        rw [Nat.beq_eq_true_eq] at hq
        omega
    have hcond : ¬((((dateListFor 3 members db.ts (spanOf s e)).filter
        (fun x => p.available.contains x)).length == 0) = true) := by
      rw [hflen]
      simp
    rw [runGroup_eq, if_neg hcond]
    have hcnt : countAvail ((dateListFor 3 members db.ts (spanOf s e)).filter
          (fun x => p.available.contains x)) (dateListFor 3 members db.ts (spanOf s e))
        ≤ ceilOfDiv ((dateListFor 3 members db.ts (spanOf s e)).filter
          (fun x => p.available.contains x)).length n * n := by
      rw [countAvail_filter_self]
      exact le_ceilOfDiv_mul _ n hn
    obtain ⟨batch, hbg, hdb⟩ := d_in_some_batch hn hdl hdf hcnt
    obtain ⟨g1, g2, hgs⟩ := List.append_of_mem hbg
    rw [hgs, List.foldl_append, List.foldl_cons]
    have hres := resultFor_lookup_isSome hdb ha
    have hhas := writeBatch_memberHas ev 3 s members (earliestRec db.ts s)
      (latestRec db.ts s) batch (resultFor p batch)
      (g1.foldl (fun acc batch2 =>
        writeBatch ev 3 s members (earliestRec db.ts s) (latestRec db.ts s)
          batch2 (resultFor p batch2) acc) db) m d hm hdb hres
    exact foldl_pres (fun db2 : DB => memberHas db2.ts m d) _
      (fun db2 batch2 h2 => writeBatch_memberHas_mono ev 3 s members _ _ batch2
        (resultFor p batch2) db2 h2) g2 _ hhas

theorem runGroup_update_fixpoint (p : Provider) (ev : List String) (members : List Nat)
    (s e n : Nat) (db : DB) (hn : 1 ≤ n) :
    runGroup p ev 3 members s e n (runGroup p ev 3 members s e n db)
      = runGroup p ev 3 members s e n db := by
  have hempty : (dateListFor 3 members (runGroup p ev 3 members s e n db).ts
      (spanOf s e)).filter (fun x => p.available.contains x) = [] := by
    apply List.filter_eq_nil_iff.mpr
    intro d hd
    obtain ⟨hspan, m2, hm2, hnot⟩ := (claim2_update_pending _ _ _ d).mp hd
    intro hcontra
    exact hnot (runGroup_covers p ev members s e n db hn m2 d hm2 hspan
      (by simpa using hcontra))
  rw [runGroup_eq p ev 3 members s e n (runGroup p ev 3 members s e n db), hempty]
  simp

/-- C1: running database-update mode (3) twice against an unchanged
deterministic provider and an unchanged demand group leaves the store
unchanged on the second run: the TIMESERIES and DATA row counts after the
second run equal those after the first (in fact the whole store is equal). -/
theorem claim1_update_idempotent (p : Provider) (ev : List String) (members : List Nat)
    (s e n : Nat) (db : DB) (hn : 1 ≤ n) :
    (runGroup p ev 3 members s e n (runGroup p ev 3 members s e n db)).ts.length
      = (runGroup p ev 3 members s e n db).ts.length ∧
    (runGroup p ev 3 members s e n (runGroup p ev 3 members s e n db)).data.length
      = (runGroup p ev 3 members s e n db).data.length := by
  rw [runGroup_update_fixpoint p ev members s e n db hn]
  exact ⟨rfl, rfl⟩

/-- Witness for C1 at a concrete provider and store. -/
theorem claim1_update_idempotent_witness :
    (runGroup ⟨[0, 4], fun d => [("red_median", 10)]⟩ [] 3 [1, 2] 0 4 5
        (runGroup ⟨[0, 4], fun d => [("red_median", 10)]⟩ [] 3 [1, 2] 0 4 5
          ⟨[], [], [], []⟩)).ts.length
      = (runGroup ⟨[0, 4], fun d => [("red_median", 10)]⟩ [] 3 [1, 2] 0 4 5
          ⟨[], [], [], []⟩).ts.length ∧
    (runGroup ⟨[0, 4], fun d => [("red_median", 10)]⟩ [] 3 [1, 2] 0 4 5
        (runGroup ⟨[0, 4], fun d => [("red_median", 10)]⟩ [] 3 [1, 2] 0 4 5
          ⟨[], [], [], []⟩)).data.length
      = (runGroup ⟨[0, 4], fun d => [("red_median", 10)]⟩ [] 3 [1, 2] 0 4 5
          ⟨[], [], [], []⟩).data.length :=
  claim1_update_idempotent ⟨[0, 4], fun d => [("red_median", 10)]⟩ [] [1, 2] 0 4 5
    ⟨[], [], [], []⟩ (by decide)

/-! ### Frame lemmas for the persistence writer -/

theorem foldl_pres_mem {σ α : Type _} (P : σ → Prop) (f : σ → α → σ) :
    ∀ (l : List α), (∀ s, ∀ a ∈ l, P s → P (f s a)) → ∀ (s : σ), P s → P (l.foldl f s)
  | [], _, _, hs => hs
  | a :: l, h, s, hs =>
    foldl_pres_mem P f l (fun s2 a2 ha2 => h s2 a2 (List.mem_cons_of_mem a ha2))
      (f s a) (h s a (List.mem_cons_self a l) hs)

theorem exists_last_id : ∀ {l : List TSRow}, l ≠ [] →
    ∃ r ∈ l, ((l.map (fun r => r.id)).getLastD 0) = r.id
  | [], h => absurd rfl h
  | [a], _ => ⟨a, by simp, rfl⟩
  | a :: b :: t, _ => by
    obtain ⟨r, hr, hid⟩ := exists_last_id (l := b :: t) (by simp)
    refine ⟨r, List.mem_cons_of_mem a hr, ?_⟩
    rw [List.map_cons, List.getLastD_cons]
    rwa [show ((b :: t).map (fun r => r.id)).getLastD a.id
        = ((b :: t).map (fun r => r.id)).getLastD 0 from by
      simp only [List.map_cons, List.getLastD_cons]]

theorem filter_del_ne {i j : Nat} (hne : ¬(i = j)) :
    ∀ (data : List DataRow),
      (data.filter (fun r => !(r.tsId == j))).filter (fun r => r.tsId == i)
        = data.filter (fun r => r.tsId == i)
  | [] => rfl
  | r :: data => by
    by_cases hj : (r.tsId == j) = true
    · have hi : (r.tsId == i) = false := by
        cases hq : r.tsId == i
        · rfl
        · exact absurd ((beq_iff_eq.mp hq).symm.trans (beq_iff_eq.mp hj)) hne
      simp [List.filter_cons, hj, hi, filter_del_ne hne data]
    · have hj2 : (r.tsId == j) = false := Bool.not_eq_true _ ▸ hj
      by_cases hi : (r.tsId == i) = true
      · simp [List.filter_cons, hj2, hi, filter_del_ne hne data]
      · simp [List.filter_cons, hj2, Bool.not_eq_true _ ▸ hi, filter_del_ne hne data]

theorem filter_not_self (i : Nat) :
    ∀ (data : List DataRow),
      (data.filter (fun r => !(r.tsId == i))).filter (fun r => r.tsId == i) = []
  | [] => rfl
  | r :: data => by
    by_cases hi : (r.tsId == i) = true
    · simp [List.filter_cons, hi, filter_not_self i data]
    · simp [List.filter_cons, Bool.not_eq_true _ ▸ hi, filter_not_self i data]

theorem filter_tsid_nil {i : Nat} {data : List DataRow}
    (h : ∀ r ∈ data, ¬(r.tsId = i)) :
    data.filter (fun r => r.tsId == i) = [] :=
  List.filter_eq_nil_iff.mpr (fun r hr => by simp [h r hr])

theorem writeDate_result_lookup_none (ev : List String) (mode m eM lM : Nat)
    (s : WriterState) (d x : Nat) (h : s.result.lookup x = none) :
    (writeDate ev mode m eM lM s d).result.lookup x = none := by
  have hsome := writeDate_result_lookup_isSome ev mode m eM lM s d x
  cases hq : (writeDate ev mode m eM lM s d).result.lookup x with
  | none => rfl
  | some v =>
    rw [hq, h] at hsome
    exact absurd hsome (by simp)

theorem sorted_headD_le {l : List Nat} (hs : l.Pairwise (· ≤ ·)) {d : Nat} (hd : d ∈ l) :
    l.headD 0 ≤ d := by
  cases l with
  | nil => exact absurd hd (List.not_mem_nil d)
  | cons b t =>
    rcases List.mem_cons.mp hd with rfl | h2
    · exact Nat.le_refl _
    · exact (List.pairwise_cons.mp hs).1 d h2

theorem sorted_le_getLastD : ∀ {l : List Nat}, l.Pairwise (· ≤ ·) →
    ∀ {d : Nat}, d ∈ l → d ≤ l.getLastD 0
  | [], _, _, hd => absurd hd (List.not_mem_nil _)
  | [b], _, d, hd => by
    rcases List.mem_cons.mp hd with rfl | h2
    · exact Nat.le_refl _
    · exact absurd h2 (List.not_mem_nil _)
  | b :: c :: t, hs, d, hd => by
    have hsub : (c :: t).Pairwise (· ≤ ·) := (List.pairwise_cons.mp hs).2
    have heq : (b :: c :: t).getLastD 0 = (c :: t).getLastD 0 := by
      simp only [List.getLastD_cons]
    rw [heq]
    rcases List.mem_cons.mp hd with rfl | h2
    · exact Nat.le_trans ((List.pairwise_cons.mp hs).1 c (by simp))
        (sorted_le_getLastD hsub (by simp))
    · exact sorted_le_getLastD hsub h2

theorem dataStep_frame (ev : List String) (s : WriterState) (d0 : Nat) (i m d : Nat)
    (hinv : FrameInv i m d s)
    (hcur : (s.result.lookup d0).isSome = true → ¬(s.currTimeSeriesId.getD 0 = i)) :
    FrameInv i m d (dataStep ev s d0) ∧
    (dataStep ev s d0).db.data.filter (fun r => r.tsId == i)
      = s.db.data.filter (fun r => r.tsId == i) ∧
    (dataStep ev s d0).db.ts.filter (fun r => (r.date == d) && (r.demandId == m))
      = s.db.ts.filter (fun r => (r.date == d) && (r.demandId == m)) := by
  cases hl : s.result.lookup d0 with
  | none =>
    rw [dataStep_of_lookup_none hl]
    exact ⟨hinv, rfl, rfl⟩
  | some es =>
    obtain ⟨rows, hts, hdata, hlen, hall, hlast, hcurr⟩ :=
      @dataStep_of_lookup_some ev _ _ _ hl
    have hcuri : ¬(s.currTimeSeriesId.getD 0 = i) := hcur (by rw [hl]; rfl)
    refine ⟨?_, ?_, ?_⟩
    · unfold FrameInv at hinv ⊢
      rw [hts, hlast]
      exact hinv
    · have hrows : rows.filter (fun r => r.tsId == i) = [] :=
        filter_tsid_nil (fun r hr => by rw [hall r hr]; exact hcuri)
      rw [hdata, List.filter_append, hrows, List.append_nil]
    · rw [hts]

theorem writeDate_frame (ev : List String) (mode m0 eM lM : Nat) (s : WriterState)
    (d0 : Nat) {i m d : Nat} (hinv : FrameInv i m d s) (hne : ¬(m0 = m ∧ d0 = d)) :
    FrameInv i m d (writeDate ev mode m0 eM lM s d0) ∧
    (writeDate ev mode m0 eM lM s d0).db.data.filter (fun r => r.tsId == i)
      = s.db.data.filter (fun r => r.tsId == i) ∧
    (writeDate ev mode m0 eM lM s d0).db.ts.filter
        (fun r => (r.date == d) && (r.demandId == m))
      = s.db.ts.filter (fun r => (r.date == d) && (r.demandId == m)) := by
  have hpred : ((d0 == d) && (m0 == m)) = false := by
    cases hq : ((d0 == d) && (m0 == m)) with
    | false => rfl
    | true =>
      rw [Bool.and_eq_true] at hq
      exact absurd ⟨beq_iff_eq.mp hq.2, beq_iff_eq.mp hq.1⟩ hne
  unfold writeDate
  by_cases h1 : (sameDateRows s m0 d0).isEmpty = true
  · by_cases h2 : ((s.result.lookup d0).isSome ||
        (decide (eM < d0) && decide (d0 < lM))) = true
    · rw [tsStep_eq_insert h1 h2]
      obtain ⟨hRow, hile, hbound, hnodup⟩ := hinv
      have hfresh : ¬(s.lastTimeSeriesId + 1 = i) := by omega
      have hinv1 : FrameInv i m d
          { s with db := { s.db with ts := s.db.ts ++ [⟨s.lastTimeSeriesId + 1, m0, d0⟩] },
                   lastTimeSeriesId := s.lastTimeSeriesId + 1,
                   currTimeSeriesId := some (s.lastTimeSeriesId + 1) } := by
        refine ⟨?_, Nat.le_succ_of_le hile, ?_, ?_⟩
        · intro r hr hid
          rcases List.mem_append.mp hr with hr | hr
          · exact hRow r hr hid
          · rw [List.mem_singleton.mp hr] at hid
            exact absurd hid hfresh
        · intro r hr
          rcases List.mem_append.mp hr with hr | hr
          · exact Nat.le_succ_of_le (hbound r hr)
          · rw [List.mem_singleton.mp hr]
        · rw [List.map_append]
          refine List.Nodup.append hnodup (by simp) ?_
          intro a ha hb
          rcases List.mem_map.mp ha with ⟨r, hr, rfl⟩
          have h1 := hbound r hr
          have h2 : r.id = s.lastTimeSeriesId + 1 := by simpa using hb
          omega
      obtain ⟨hA, hB, hC⟩ := dataStep_frame ev _ d0 i m d hinv1 (fun _ => hfresh)
      refine ⟨hA, hB, ?_⟩
      rw [hC]
      show (s.db.ts ++ ([⟨s.lastTimeSeriesId + 1, m0, d0⟩] : List TSRow)).filter
          (fun r => (r.date == d) && (r.demandId == m))
        = s.db.ts.filter (fun r => (r.date == d) && (r.demandId == m))
      rw [List.filter_append]
      have hone : ([⟨s.lastTimeSeriesId + 1, m0, d0⟩] : List TSRow).filter
          (fun r => (r.date == d) && (r.demandId == m)) = [] := by
        simp only [List.filter_cons, List.filter_nil]
        rw [show (((⟨s.lastTimeSeriesId + 1, m0, d0⟩ : TSRow).date == d) &&
            ((⟨s.lastTimeSeriesId + 1, m0, d0⟩ : TSRow).demandId == m)) = false from hpred]
        rfl
      rw [hone, List.append_nil]
    · have h2' : ((s.result.lookup d0).isSome ||
          (decide (eM < d0) && decide (d0 < lM))) = false := Bool.not_eq_true _ ▸ h2
      rw [tsStep_eq_skip h1 h2']
      have hiss : (s.result.lookup d0).isSome = false := (Bool.or_eq_false_iff.mp h2').1
      have hnone : s.result.lookup d0 = none := by
        cases hq : s.result.lookup d0 with
        | none => rfl
        | some v => rw [hq] at hiss; exact absurd hiss (by simp)
      rw [dataStep_of_lookup_none hnone]
      exact ⟨hinv, rfl, rfl⟩
  · have h1' : (sameDateRows s m0 d0).isEmpty = false := Bool.not_eq_true _ ▸ h1
    have hnonnil : sameDateRows s m0 d0 ≠ [] := by
      intro hq
      rw [hq] at h1'
      exact absurd h1' (by simp)
    obtain ⟨r', hr'mem, hr'id⟩ := exists_last_id hnonnil
    have hr'ts : r' ∈ s.db.ts := List.mem_of_mem_filter hr'mem
    have hr'pred := List.of_mem_filter hr'mem
    rw [Bool.and_eq_true] at hr'pred
    have hjne : ¬(lastSameId s m0 d0 = i) := by
      intro hq
      have hri : r'.id = i := by rw [← hr'id]; exact hq
      obtain ⟨hdm, hdd⟩ := hinv.1 r' hr'ts hri
      refine hne ⟨?_, ?_⟩
      · rw [← beq_iff_eq.mp hr'pred.2]; exact hdm
      · rw [← beq_iff_eq.mp hr'pred.1]; exact hdd
    by_cases h4 : (mode == 4) = true
    · rw [tsStep_eq_reuse4 h1' h4]
      have hinv1 : FrameInv i m d
          { s with db := { s.db with
                    data := s.db.data.filter (fun r => !(r.tsId == lastSameId s m0 d0)) },
                   currTimeSeriesId := some (lastSameId s m0 d0) } := hinv
      obtain ⟨hA, hB, hC⟩ := dataStep_frame ev _ d0 i m d hinv1 (fun _ => hjne)
      refine ⟨hA, ?_, hC⟩
      rw [hB]
      exact filter_del_ne (fun he => hjne he.symm) s.db.data
    · have h4' : (mode == 4) = false := Bool.not_eq_true _ ▸ h4
      rw [tsStep_eq_reuse_not4 h1' h4']
      have hinv1 : FrameInv i m d
          { s with currTimeSeriesId := some (lastSameId s m0 d0) } := hinv
      exact dataStep_frame ev _ d0 i m d hinv1 (fun _ => hjne)

theorem writeDate_at_key4 (ev : List String) (m d eM lM : Nat) (s : WriterState)
    {i : Nat} {es : List (String × Int)}
    (hinv : FrameInv i m d s)
    (hkeyne : (sameDateRows s m d).isEmpty = false)
    (hlast : lastSameId s m d = i)
    (hl : s.result.lookup d = some es) :
    FrameInv i m d (writeDate ev 4 m eM lM s d) ∧
    ((writeDate ev 4 m eM lM s d).db.data.filter (fun r => r.tsId == i)).length
      = (es.filter (fun e => !(e.1 == "img_time"))).length ∧
    (writeDate ev 4 m eM lM s d).db.ts.filter
        (fun r => (r.date == d) && (r.demandId == m))
      = s.db.ts.filter (fun r => (r.date == d) && (r.demandId == m)) := by
  have heq := @tsStep_eq_reuse4 4 m eM lM s d hkeyne rfl
  have hl1 : (tsStep 4 m eM lM s d).result.lookup d = some es := by
    rw [tsStep_result]
    exact hl
  obtain ⟨rows, hts, hdata, hlen, hall, hlastid, hcurr⟩ :=
    @dataStep_of_lookup_some ev _ _ _ hl1
  have hts2 : (tsStep 4 m eM lM s d).db.ts = s.db.ts := by rw [heq]
  have hdata2 : (tsStep 4 m eM lM s d).db.data
      = s.db.data.filter (fun r => !(r.tsId == lastSameId s m d)) := by rw [heq]
  have hlast2 : (tsStep 4 m eM lM s d).lastTimeSeriesId = s.lastTimeSeriesId := by
    rw [heq]
  have hcurr2 : (tsStep 4 m eM lM s d).currTimeSeriesId
      = some (lastSameId s m d) := by rw [heq]
  unfold writeDate
  refine ⟨?_, ?_, ?_⟩
  · unfold FrameInv at hinv ⊢
    rw [hts, hlastid, hts2, hlast2]
    exact hinv
  · rw [hdata, List.filter_append, hdata2]
    have hzero : (s.db.data.filter (fun r => !(r.tsId == lastSameId s m d))).filter
        (fun r => r.tsId == i) = [] := by
      rw [hlast]
      exact filter_not_self i s.db.data
    have hrows : rows.filter (fun r => r.tsId == i) = rows := by
      refine List.filter_eq_self.mpr (fun r hr => ?_)
      have hy := hall r hr
      rw [hcurr2] at hy
      simp only [Option.getD_some] at hy
      simp only [beq_iff_eq]
      rw [hy]
      exact hlast
    rw [hzero, hrows, List.nil_append, hlen]
  · rw [hts, hts2]

theorem writeDate_at_stub (ev : List String) (mode m d eM lM : Nat) (s : WriterState)
    (hstub : StubInv m d s) (hin1 : eM < d) (hin2 : d < lM) :
    FrameInv (s.lastTimeSeriesId + 1) m d (writeDate ev mode m eM lM s d) ∧
    (writeDate ev mode m eM lM s d).db.ts.filter
        (fun r => (r.date == d) && (r.demandId == m))
      = [⟨s.lastTimeSeriesId + 1, m, d⟩] ∧
    (writeDate ev mode m eM lM s d).db.data.filter
        (fun r => r.tsId == s.lastTimeSeriesId + 1) = [] := by
  obtain ⟨hkey, hbound, hnodup, hdataok, hresnone⟩ := hstub
  have h1 : (sameDateRows s m d).isEmpty = true := by
    show (s.db.ts.filter (fun r => (r.date == d) && (r.demandId == m))).isEmpty = true
    rw [hkey]
    rfl
  have h2 : ((s.result.lookup d).isSome ||
      (decide (eM < d) && decide (d < lM))) = true := by
    rw [hresnone]
    simp [hin1, hin2]
  have heq := @tsStep_eq_insert mode m eM lM s d h1 h2
  have hl1 : (tsStep mode m eM lM s d).result.lookup d = none := by
    rw [tsStep_result]
    exact hresnone
  have hts2 : (tsStep mode m eM lM s d).db.ts
      = s.db.ts ++ ([⟨s.lastTimeSeriesId + 1, m, d⟩] : List TSRow) := by rw [heq]
  have hdata2 : (tsStep mode m eM lM s d).db.data = s.db.data := by rw [heq]
  have hlast2 : (tsStep mode m eM lM s d).lastTimeSeriesId
      = s.lastTimeSeriesId + 1 := by rw [heq]
  unfold writeDate
  rw [dataStep_of_lookup_none hl1]
  refine ⟨⟨?_, ?_, ?_, ?_⟩, ?_, ?_⟩
  · rw [hts2]
    intro r hr hid
    rcases List.mem_append.mp hr with hr | hr
    · exact absurd hid (by have := hbound r hr; omega)
    · rw [List.mem_singleton.mp hr]
      exact ⟨rfl, rfl⟩
  · rw [hlast2]
  · rw [hts2, hlast2]
    intro r hr
    rcases List.mem_append.mp hr with hr | hr
    · exact Nat.le_succ_of_le (hbound r hr)
    · rw [List.mem_singleton.mp hr]
  · rw [hts2, List.map_append]
    refine List.Nodup.append hnodup (by simp) ?_
    intro a ha hb
    rcases List.mem_map.mp ha with ⟨r, hr, rfl⟩
    have hb1 := hbound r hr
    have hb2 : r.id = s.lastTimeSeriesId + 1 := by simpa using hb
    omega
  · rw [hts2, List.filter_append, hkey, List.nil_append]
    simp
  · rw [hdata2]
    refine filter_tsid_nil (fun r hr => ?_)
    obtain ⟨t, ht, hti⟩ := hdataok r hr
    have := hbound t ht
    omega

theorem nodup_split_parts {α : Type _} {l₁ l₂ : List α} {a : α}
    (h : (l₁ ++ a :: l₂).Nodup) : a ∉ l₁ ∧ a ∉ l₂ := by
  rw [List.nodup_middle] at h
  have h2 := (List.nodup_cons.mp h).1
  rw [List.mem_append] at h2
  exact ⟨fun hx => h2 (Or.inl hx), fun hx => h2 (Or.inr hx)⟩

theorem writeMember_entCountD (ev : List String) (mode startTs : Nat)
    (earliest latest : Nat → Nat) (batch : List Nat) (s : WriterState) (m0 x : Nat) :
    entCountD (writeMember ev mode startTs earliest latest batch s m0).result x
      = entCountD s.result x := by
  unfold writeMember
  split
  · rfl
  · refine foldl_pres (fun s2 => entCountD s2.result x = entCountD s.result x)
      (writeDate ev mode m0 (earliest m0) (latest m0)) ?_ batch s rfl
    intro s2 d0 hp
    rw [writeDate_entCountD]
    exact hp

theorem writeMember_result_isEmpty (ev : List String) (mode startTs : Nat)
    (earliest latest : Nat → Nat) (batch : List Nat) (s : WriterState) (m0 : Nat) :
    (writeMember ev mode startTs earliest latest batch s m0).result.isEmpty
      = s.result.isEmpty := by
  unfold writeMember
  split
  · rfl
  · refine foldl_pres (fun s2 => s2.result.isEmpty = s.result.isEmpty)
      (writeDate ev mode m0 (earliest m0) (latest m0)) ?_ batch s rfl
    intro s2 d0 hp
    rw [writeDate_result_isEmpty]
    exact hp

theorem writeMember_frame (ev : List String) (mode startTs : Nat)
    (earliest latest : Nat → Nat) (batch : List Nat) {i m d : Nat} {m0 : Nat}
    (hne : ¬(m0 = m)) (s : WriterState) (h : FrameInv i m d s) :
    FrameInv i m d (writeMember ev mode startTs earliest latest batch s m0) ∧
    (writeMember ev mode startTs earliest latest batch s m0).db.data.filter
        (fun r => r.tsId == i) = s.db.data.filter (fun r => r.tsId == i) ∧
    (writeMember ev mode startTs earliest latest batch s m0).db.ts.filter
        (fun r => (r.date == d) && (r.demandId == m))
      = s.db.ts.filter (fun r => (r.date == d) && (r.demandId == m)) := by
  unfold writeMember
  split
  · exact ⟨h, rfl, rfl⟩
  · refine foldl_pres (fun s2 =>
      FrameInv i m d s2 ∧
      s2.db.data.filter (fun r => r.tsId == i)
        = s.db.data.filter (fun r => r.tsId == i) ∧
      s2.db.ts.filter (fun r => (r.date == d) && (r.demandId == m))
        = s.db.ts.filter (fun r => (r.date == d) && (r.demandId == m)))
      (writeDate ev mode m0 (earliest m0) (latest m0)) ?_ batch s ⟨h, rfl, rfl⟩
    intro s2 d0 hp
    obtain ⟨hA, hB, hC⟩ := writeDate_frame ev mode m0 (earliest m0) (latest m0) s2 d0
      hp.1 (fun hq => hne hq.1)
    exact ⟨hA, hB.trans hp.2.1, hC.trans hp.2.2⟩

theorem writeDate_invA (ev : List String) (mode m0 eM lM : Nat) {i m d : Nat}
    {v : List DataRow} {w : List TSRow} {n : Nat} (d0 : Nat)
    (hne : ¬(m0 = m ∧ d0 = d)) (s : WriterState)
    (hp : OverwriteInvA i m d v w n s) :
    OverwriteInvA i m d v w n (writeDate ev mode m0 eM lM s d0) := by
  obtain ⟨h1, h2, h3, h4, h5, h6⟩ := hp
  obtain ⟨hA, hB, hC⟩ := writeDate_frame ev mode m0 eM lM s d0 h1 hne
  refine ⟨hA, hB.trans h2, hC.trans h3, ?_, ?_, ?_⟩
  · rw [writeDate_entCountD]
    exact h4
  · rw [writeDate_result_lookup_isSome]
    exact h5
  · rw [writeDate_result_isEmpty]
    exact h6

theorem writeMember_invA (ev : List String) (mode startTs : Nat)
    (earliest latest : Nat → Nat) (batch : List Nat) {i m d : Nat}
    {v : List DataRow} {w : List TSRow} {n : Nat} {m0 : Nat}
    (hne : ¬(m0 = m)) (s : WriterState) (hp : OverwriteInvA i m d v w n s) :
    OverwriteInvA i m d v w n
      (writeMember ev mode startTs earliest latest batch s m0) := by
  unfold writeMember
  split
  · exact hp
  · exact foldl_pres (OverwriteInvA i m d v w n)
      (writeDate ev mode m0 (earliest m0) (latest m0))
      (fun s2 d0 h => writeDate_invA ev mode m0 (earliest m0) (latest m0) d0
        (fun hq => hne hq.1) s2 h)
      batch s hp

theorem writeDate_invB (ev : List String) (mode m0 eM lM : Nat) {i m d n : Nat}
    {w : List TSRow} (d0 : Nat) (hne : ¬(m0 = m ∧ d0 = d)) (s : WriterState)
    (hp : OverwriteInvB i m d n w s) :
    OverwriteInvB i m d n w (writeDate ev mode m0 eM lM s d0) := by
  obtain ⟨h1, h2, h3⟩ := hp
  obtain ⟨hA, hB, hC⟩ := writeDate_frame ev mode m0 eM lM s d0 h1 hne
  refine ⟨hA, ?_, hC.trans h3⟩
  rw [hB]
  exact h2

theorem writeMember_invB (ev : List String) (mode startTs : Nat)
    (earliest latest : Nat → Nat) (batch : List Nat) {i m d n : Nat}
    {w : List TSRow} {m0 : Nat} (hne : ¬(m0 = m)) (s : WriterState)
    (hp : OverwriteInvB i m d n w s) :
    OverwriteInvB i m d n w
      (writeMember ev mode startTs earliest latest batch s m0) := by
  unfold writeMember
  split
  · exact hp
  · exact foldl_pres (OverwriteInvB i m d n w)
      (writeDate ev mode m0 (earliest m0) (latest m0))
      (fun s2 d0 h => writeDate_invB ev mode m0 (earliest m0) (latest m0) d0
        (fun hq => hne hq.1) s2 h)
      batch s hp

/-- C6: in overwrite mode (4), for a `(member, date)` whose TIMESERIES
record already exists (uniquely, with distinct ids in the store) and whose
date has a result entry, the writer reuses the existing record — the
TIMESERIES rows for the key are unchanged by the whole batch — and after
the run the DATA rows referencing that record's id are exactly the newly
retrieved values (one per non-`img_time` entry): the old rows were deleted
before the insert, so no old value survives next to a new one. -/
theorem claim6_overwrite_replaces_values (ev : List String) (startTs : Nat)
    (members : List Nat) (earliest latest : Nat → Nat) (batch : List Nat)
    (result : ResultMap) (db : DB) {m d : Nat} {r0 : TSRow}
    {es : List (String × Int)}
    (hkey : db.ts.filter (fun r => (r.date == d) && (r.demandId == m)) = [r0])
    (hid : (db.ts.map (fun r => r.id)).Nodup)
    (hm : m ∈ members) (hmnd : members.Nodup)
    (hd : d ∈ batch) (hbnd : batch.Nodup)
    (hres : result.lookup d = some es) :
    ((writeBatch ev 4 startTs members earliest latest batch result db).data.filter
        (fun r => r.tsId == r0.id)).length
      = (es.filter (fun e => !(e.1 == "img_time"))).length ∧
    (writeBatch ev 4 startTs members earliest latest batch result db).ts.filter
        (fun r => (r.date == d) && (r.demandId == m)) = [r0] := by
  have hwb : writeBatch ev 4 startTs members earliest latest batch result db
      = (members.foldl (writeMember ev 4 startTs earliest latest batch)
          (⟨db, (db.ts.map (fun r => r.id)).foldl max 0, none, result⟩ :
            WriterState)).db := rfl
  rw [hwb]
  have hr0mem : r0 ∈ db.ts.filter (fun r => (r.date == d) && (r.demandId == m)) := by
    rw [hkey]
    exact List.mem_singleton.mpr rfl
  have hr0ts : r0 ∈ db.ts := List.mem_of_mem_filter hr0mem
  have hr0pred := List.of_mem_filter hr0mem
  rw [Bool.and_eq_true] at hr0pred
  have hinv0 : FrameInv r0.id m d
      (⟨db, (db.ts.map (fun r => r.id)).foldl max 0, none, result⟩ : WriterState) := by
    refine ⟨?_, ?_, ?_, hid⟩
    · intro r hr hidr
      have hrr : r = r0 := List.inj_on_of_nodup_map hid hr hr0ts hidr
      rw [hrr]
      exact ⟨beq_iff_eq.mp hr0pred.2, beq_iff_eq.mp hr0pred.1⟩
    · exact foldl_max_le_mem _ 0 r0.id (List.mem_map.mpr ⟨r0, hr0ts, rfl⟩)
    · intro r hr
      exact foldl_max_le_mem _ 0 r.id (List.mem_map.mpr ⟨r, hr, rfl⟩)
  have hn0 : entCountD result d = (es.filter (fun e => !(e.1 == "img_time"))).length := by
    unfold entCountD
    rw [hres]
    rfl
  have hie0 : result.isEmpty = false := by
    cases result with
    | nil => exact absurd hres (by simp [List.lookup])
    | cons p r => rfl
  have hA0 : OverwriteInvA r0.id m d (db.data.filter (fun r => r.tsId == r0.id)) [r0]
      (es.filter (fun e => !(e.1 == "img_time"))).length
      (⟨db, (db.ts.map (fun r => r.id)).foldl max 0, none, result⟩ : WriterState) := by
    refine ⟨hinv0, rfl, hkey, hn0, ?_, hie0⟩
    have : (result.lookup d).isSome = true := by rw [hres]; rfl
    exact this
  obtain ⟨l1, l2, hmsplit⟩ := List.append_of_mem hm
  obtain ⟨b1, b2, hbsplit⟩ := List.append_of_mem hd
  subst hmsplit
  subst hbsplit
  obtain ⟨hml1, hml2⟩ := nodup_split_parts hmnd
  obtain ⟨hdb1, hdb2⟩ := nodup_split_parts hbnd
  rw [List.foldl_append, List.foldl_cons]
  set s0 : WriterState :=
    ⟨db, (db.ts.map (fun r => r.id)).foldl max 0, none, result⟩ with hs0
  have hA1 := foldl_pres_mem
    (OverwriteInvA r0.id m d (db.data.filter (fun r => r.tsId == r0.id)) [r0]
      (es.filter (fun e => !(e.1 == "img_time"))).length)
    (writeMember ev 4 startTs earliest latest (b1 ++ d :: b2)) l1
    (fun s2 m1 hm1 hp => writeMember_invA ev 4 startTs earliest latest (b1 ++ d :: b2)
      (fun he => hml1 (by rw [he] at hm1; exact hm1)) s2 hp) s0 hA0
  set s1 := l1.foldl (writeMember ev 4 startTs earliest latest (b1 ++ d :: b2)) s0 with hs1
  obtain ⟨hinv1, hdata1, hkey1, hcnt1, hsome1, hie1⟩ := hA1
  have hguard : (s1.result.isEmpty &&
      (decide (latest m < (b1 ++ d :: b2).headD 0) ||
        decide ((b1 ++ d :: b2).getLastD 0 < earliest m) ||
        (latest m == startTs))) = false := by
    rw [hie1]
    rfl
  have hwm : writeMember ev 4 startTs earliest latest (b1 ++ d :: b2) s1 m
      = (b1 ++ d :: b2).foldl (writeDate ev 4 m (earliest m) (latest m)) s1 := by
    unfold writeMember
    rw [hguard]
    rfl
  rw [hwm, List.foldl_append, List.foldl_cons]
  have hA2 := foldl_pres_mem
    (OverwriteInvA r0.id m d (db.data.filter (fun r => r.tsId == r0.id)) [r0]
      (es.filter (fun e => !(e.1 == "img_time"))).length)
    (writeDate ev 4 m (earliest m) (latest m)) b1
    (fun s2 d0 hd0 hp => writeDate_invA ev 4 m (earliest m) (latest m) d0
      (fun hq => hdb1 (by rw [hq.2] at hd0; exact hd0)) s2 hp)
    s1 ⟨hinv1, hdata1, hkey1, hcnt1, hsome1, hie1⟩
  set s2 := b1.foldl (writeDate ev 4 m (earliest m) (latest m)) s1 with hs2
  obtain ⟨hinv2, hdata2, hkey2, hcnt2, hsome2, hie2⟩ := hA2
  obtain ⟨es2, hes2⟩ := Option.isSome_iff_exists.mp hsome2
  have hkeyne2 : (sameDateRows s2 m d).isEmpty = false := by
    show (s2.db.ts.filter (fun r => (r.date == d) && (r.demandId == m))).isEmpty = false
    rw [hkey2]
    rfl
  have hlastid2 : lastSameId s2 m d = r0.id := by
    show ((sameDateRows s2 m d).map (fun r => r.id)).getLastD 0 = r0.id
    rw [show sameDateRows s2 m d = [r0] from hkey2]
    rfl
  obtain ⟨hinv3, hlen3, hkey3⟩ :=
    writeDate_at_key4 ev m d (earliest m) (latest m) s2 hinv2 hkeyne2 hlastid2 hes2
  have hlen3b : ((writeDate ev 4 m (earliest m) (latest m) s2 d).db.data.filter
      (fun r => r.tsId == r0.id)).length
      = (es.filter (fun e => !(e.1 == "img_time"))).length := by
    rw [hlen3]
    have hc : entCountD s2.result d = (es2.filter (fun e => !(e.1 == "img_time"))).length := by
      unfold entCountD
      rw [hes2]
      rfl
    rw [← hc, hcnt2]
  have hB3 : OverwriteInvB r0.id m d
      (es.filter (fun e => !(e.1 == "img_time"))).length [r0]
      (writeDate ev 4 m (earliest m) (latest m) s2 d) :=
    ⟨hinv3, hlen3b, hkey3.trans hkey2⟩
  have hB4 := foldl_pres_mem
    (OverwriteInvB r0.id m d (es.filter (fun e => !(e.1 == "img_time"))).length [r0])
    (writeDate ev 4 m (earliest m) (latest m)) b2
    (fun s3 d0 hd0 hp => writeDate_invB ev 4 m (earliest m) (latest m) d0
      (fun hq => hdb2 (by rw [hq.2] at hd0; exact hd0)) s3 hp) _ hB3
  have hB5 := foldl_pres_mem
    (OverwriteInvB r0.id m d (es.filter (fun e => !(e.1 == "img_time"))).length [r0])
    (writeMember ev 4 startTs earliest latest (b1 ++ d :: b2)) l2
    (fun s3 m1 hm1 hp => writeMember_invB ev 4 startTs earliest latest (b1 ++ d :: b2)
      (fun he => hml2 (by rw [he] at hm1; exact hm1)) s3 hp) _ hB4
  exact ⟨hB5.2.1, hB5.2.2⟩

theorem claim6_overwrite_replaces_values_witness :
    ((writeBatch [] 4 0 [7] (fun _ => 1) (fun _ => 9) [5]
        [(5, [("img_time", (50 : Int)), ("red_median", 3)])]
        ⟨[⟨1, 7, 5⟩], [⟨1, 0, 0, 0, 99⟩], [], []⟩).data.filter
        (fun r => r.tsId == (⟨1, 7, 5⟩ : TSRow).id)).length
      = (([("img_time", (50 : Int)), ("red_median", 3)]).filter
          (fun e => !(e.1 == "img_time"))).length ∧
    (writeBatch [] 4 0 [7] (fun _ => 1) (fun _ => 9) [5]
        [(5, [("img_time", (50 : Int)), ("red_median", 3)])]
        ⟨[⟨1, 7, 5⟩], [⟨1, 0, 0, 0, 99⟩], [], []⟩).ts.filter
        (fun r => (r.date == 5) && (r.demandId == 7)) = [⟨1, 7, 5⟩] :=
  @claim6_overwrite_replaces_values [] 0 [7] (fun _ => 1) (fun _ => 9) [5]
    [(5, [("img_time", (50 : Int)), ("red_median", 3)])]
    ⟨[⟨1, 7, 5⟩], [⟨1, 0, 0, 0, 99⟩], [], []⟩ 7 5 ⟨1, 7, 5⟩
    [("img_time", (50 : Int)), ("red_median", 3)]
    (by decide) (by decide) (by decide) (by decide) (by decide) (by decide) (by decide)

theorem eq_none_of_isSome_false {α : Type _} {o : Option α} (h : o.isSome = false) :
    o = none := by
  cases o
  · rfl
  · exact absurd h (by simp)

theorem dataStep_stub (ev : List String) (s : WriterState) (d0 : Nat) {m d : Nat}
    (hstub : StubInv m d s)
    (hcurok : (s.result.lookup d0).isSome = true →
      ∃ t ∈ s.db.ts, s.currTimeSeriesId.getD 0 = t.id) :
    StubInv m d (dataStep ev s d0) := by
  obtain ⟨hkey, hbound, hnodup, hdataok, hresnone⟩ := hstub
  cases hl : s.result.lookup d0 with
  | none =>
    rw [dataStep_of_lookup_none hl]
    exact ⟨hkey, hbound, hnodup, hdataok, hresnone⟩
  | some es =>
    obtain ⟨rows, hts, hdata, hlen, hall, hlast, hcurr⟩ :=
      @dataStep_of_lookup_some ev _ _ _ hl
    obtain ⟨t0, ht0, hcur⟩ := hcurok (by rw [hl]; rfl)
    refine ⟨?_, ?_, ?_, ?_, ?_⟩
    · rw [hts]
      exact hkey
    · rw [hts, hlast]
      exact hbound
    · rw [hts]
      exact hnodup
    · intro r hr
      rw [hdata] at hr
      rw [hts]
      rcases List.mem_append.mp hr with hr | hr
      · exact hdataok r hr
      · exact ⟨t0, ht0, by rw [hall r hr]; exact hcur⟩
    · refine eq_none_of_isSome_false ?_
      rw [dataStep_result_lookup_isSome, hresnone]
      rfl

theorem writeDate_stub_frame (ev : List String) (mode m0 eM lM : Nat) (s : WriterState)
    (d0 : Nat) {m d : Nat} (hstub : StubInv m d s) (hne : ¬(m0 = m ∧ d0 = d)) :
    StubInv m d (writeDate ev mode m0 eM lM s d0) := by
  obtain ⟨hkey, hbound, hnodup, hdataok, hresnone⟩ := hstub
  have hpred : ((d0 == d) && (m0 == m)) = false := by
    cases hq : ((d0 == d) && (m0 == m)) with
    | false => rfl
    | true =>
      rw [Bool.and_eq_true] at hq
      exact absurd ⟨beq_iff_eq.mp hq.2, beq_iff_eq.mp hq.1⟩ hne
  unfold writeDate
  by_cases h1 : (sameDateRows s m0 d0).isEmpty = true
  · by_cases h2 : ((s.result.lookup d0).isSome ||
        (decide (eM < d0) && decide (d0 < lM))) = true
    · have heq := @tsStep_eq_insert mode m0 eM lM s d0 h1 h2
      rw [heq]
      refine dataStep_stub ev _ d0 ⟨?_, ?_, ?_, ?_, hresnone⟩ ?_
      · show (s.db.ts ++ ([⟨s.lastTimeSeriesId + 1, m0, d0⟩] : List TSRow)).filter
            (fun r => (r.date == d) && (r.demandId == m)) = []
        rw [List.filter_append, hkey, List.nil_append]
        simp only [List.filter_cons, List.filter_nil]
        rw [show (((⟨s.lastTimeSeriesId + 1, m0, d0⟩ : TSRow).date == d) &&
            ((⟨s.lastTimeSeriesId + 1, m0, d0⟩ : TSRow).demandId == m)) = false from hpred]
        rfl
      · intro r hr
        rcases List.mem_append.mp hr with hr | hr
        · exact Nat.le_succ_of_le (hbound r hr)
        · rw [List.mem_singleton.mp hr]
      · show ((s.db.ts ++ ([⟨s.lastTimeSeriesId + 1, m0, d0⟩] : List TSRow)).map
            (fun r => r.id)).Nodup
        rw [List.map_append]
        refine List.Nodup.append hnodup (by simp) ?_
        intro a ha hb
        rcases List.mem_map.mp ha with ⟨r, hr, rfl⟩
        have hb1 := hbound r hr
        have hb2 : r.id = s.lastTimeSeriesId + 1 := by simpa using hb
        omega
      · intro r hr
        obtain ⟨t, ht, hti⟩ := hdataok r hr
        exact ⟨t, List.mem_append_left _ ht, hti⟩
      · intro _
        refine ⟨⟨s.lastTimeSeriesId + 1, m0, d0⟩, ?_, rfl⟩
        exact List.mem_append_right _ (List.mem_singleton.mpr rfl)
    · have h2' : ((s.result.lookup d0).isSome ||
          (decide (eM < d0) && decide (d0 < lM))) = false := Bool.not_eq_true _ ▸ h2
      rw [tsStep_eq_skip h1 h2']
      refine dataStep_stub ev s d0 ⟨hkey, hbound, hnodup, hdataok, hresnone⟩ ?_
      intro hq
      rw [(Bool.or_eq_false_iff.mp h2').1] at hq
      exact absurd hq (by simp)
  · have h1' : (sameDateRows s m0 d0).isEmpty = false := Bool.not_eq_true _ ▸ h1
    have hnonnil : sameDateRows s m0 d0 ≠ [] := by
      intro hq
      rw [hq] at h1'
      exact absurd h1' (by simp)
    obtain ⟨r', hr'mem, hr'id⟩ := exists_last_id hnonnil
    have hr'ts : r' ∈ s.db.ts := List.mem_of_mem_filter hr'mem
    by_cases h4 : (mode == 4) = true
    · rw [tsStep_eq_reuse4 h1' h4]
      refine dataStep_stub ev _ d0 ⟨hkey, hbound, hnodup, ?_, hresnone⟩ ?_
      · intro r hr
        exact hdataok r (List.mem_of_mem_filter hr)
      · intro _
        exact ⟨r', hr'ts, hr'id⟩
    · have h4' : (mode == 4) = false := Bool.not_eq_true _ ▸ h4
      rw [tsStep_eq_reuse_not4 h1' h4']
      refine dataStep_stub ev _ d0 ⟨hkey, hbound, hnodup, hdataok, hresnone⟩ ?_
      intro _
      exact ⟨r', hr'ts, hr'id⟩

theorem writeDate_stub_beyond (ev : List String) (mode m eM lM : Nat) (s : WriterState)
    (d : Nat) (hstub : StubInv m d s) (hout : ¬(eM < d ∧ d < lM)) :
    writeDate ev mode m eM lM s d = s := by
  obtain ⟨hkey, _, _, _, hresnone⟩ := hstub
  have h1 : (sameDateRows s m d).isEmpty = true := by
    show (s.db.ts.filter (fun r => (r.date == d) && (r.demandId == m))).isEmpty = true
    rw [hkey]
    rfl
  have hb : (decide (eM < d) && decide (d < lM)) = false := by
    cases hq : (decide (eM < d) && decide (d < lM)) with
    | false => rfl
    | true =>
      rw [Bool.and_eq_true] at hq
      exact absurd ⟨of_decide_eq_true hq.1, of_decide_eq_true hq.2⟩ hout
  have h2 : ((s.result.lookup d).isSome ||
      (decide (eM < d) && decide (d < lM))) = false := by
    rw [hresnone, hb]
    rfl
  unfold writeDate
  rw [tsStep_eq_skip h1 h2, dataStep_of_lookup_none hresnone]

theorem writeMember_stub_frame (ev : List String) (mode startTs : Nat)
    (earliest latest : Nat → Nat) (batch : List Nat) {m d : Nat} {m0 : Nat}
    (hne : ¬(m0 = m)) (s : WriterState) (h : StubInv m d s) :
    StubInv m d (writeMember ev mode startTs earliest latest batch s m0) := by
  unfold writeMember
  split
  · exact h
  · exact foldl_pres (StubInv m d) (writeDate ev mode m0 (earliest m0) (latest m0))
      (fun s2 d0 hp => writeDate_stub_frame ev mode m0 (earliest m0) (latest m0) s2 d0 hp
        (fun hq => hne hq.1))
      batch s h

theorem writeMember_stub_beyond (ev : List String) (mode startTs : Nat)
    (earliest latest : Nat → Nat) {m d : Nat} (b1 b2 : List Nat)
    (hd1 : d ∉ b1) (hd2 : d ∉ b2) (hout : ¬(earliest m < d ∧ d < latest m))
    (s : WriterState) (h : StubInv m d s) :
    StubInv m d (writeMember ev mode startTs earliest latest (b1 ++ d :: b2) s m) := by
  unfold writeMember
  split
  · exact h
  · rw [List.foldl_append, List.foldl_cons]
    have hA := foldl_pres_mem (StubInv m d)
      (writeDate ev mode m (earliest m) (latest m)) b1
      (fun s2 d0 hd0 hp => writeDate_stub_frame ev mode m (earliest m) (latest m) s2 d0 hp
        (fun hq => hd1 (by rw [hq.2] at hd0; exact hd0))) s h
    rw [writeDate_stub_beyond ev mode m (earliest m) (latest m) _ d hA hout]
    exact foldl_pres_mem (StubInv m d)
      (writeDate ev mode m (earliest m) (latest m)) b2
      (fun s2 d0 hd0 hp => writeDate_stub_frame ev mode m (earliest m) (latest m) s2 d0 hp
        (fun hq => hd2 (by rw [hq.2] at hd0; exact hd0))) _ hA

/-- C3 (as stated is false; see the counterexample): the claim's first half
promises that a *new* TimeSeries record is created for a resultless date
strictly inside the member's observed range, but when a record for
`(member, date)` already exists the writer reuses it and creates nothing,
so the claim fails whenever such a record exists (e.g. after a previous
overwrite-mode run, or for the span dates an update-mode group re-requests
on behalf of another member).  This counterexample has date 3 strictly
inside member 1's observed range 1..5, absent from the (empty) result, yet
the run creates no TIMESERIES row because `⟨2, 1, 3⟩` already exists. -/
theorem claim3_as_stated_counterexample :
    (([] : ResultMap).lookup 3 = none) ∧
    earliestRec [⟨1, 1, 1⟩, ⟨2, 1, 3⟩, ⟨3, 1, 5⟩] 1 1 < 3 ∧
    3 < latestRec [⟨1, 1, 1⟩, ⟨2, 1, 3⟩, ⟨3, 1, 5⟩] 1 1 ∧
    ¬ ((writeBatch [] 3 1 [1]
        (fun m2 => earliestRec [⟨1, 1, 1⟩, ⟨2, 1, 3⟩, ⟨3, 1, 5⟩] 1 m2)
        (fun m2 => latestRec [⟨1, 1, 1⟩, ⟨2, 1, 3⟩, ⟨3, 1, 5⟩] 1 m2) [3] []
        ⟨[⟨1, 1, 1⟩, ⟨2, 1, 3⟩, ⟨3, 1, 5⟩], [], [], []⟩).ts.length
      = 3 + 1) := by decide

/-- C3 (amended): for a batch date with no result entry, *when no
TimeSeries record exists yet for the `(member, date)` pair* (added
precondition) and the store is well formed (distinct ids, DATA rows
referencing existing records), the writer behaves as claimed: if the date
lies strictly inside the member's observed range, exactly one new
TimeSeries record for the pair exists after the run and it has zero DATA
rows (a gap stub); if instead the date is at or beyond the member's latest
record, no TimeSeries record for the pair is created. -/
theorem claim3_gap_stub (ev : List String) (mode startTs : Nat) (members : List Nat)
    (earliest latest : Nat → Nat) (batch : List Nat) (result : ResultMap) (db : DB)
    {m d : Nat}
    (hkey : db.ts.filter (fun r => (r.date == d) && (r.demandId == m)) = [])
    (hid : (db.ts.map (fun r => r.id)).Nodup)
    (hdataok : ∀ r ∈ db.data, ∃ t ∈ db.ts, r.tsId = t.id)
    (hres : result.lookup d = none)
    (hm : m ∈ members) (hmnd : members.Nodup)
    (hd : d ∈ batch) (hbnd : batch.Nodup) (hsorted : batch.Pairwise (· ≤ ·))
    (hstart : startTs ≤ d) :
    ((earliest m < d ∧ d < latest m) →
      ∃ i0,
        (writeBatch ev mode startTs members earliest latest batch result db).ts.filter
          (fun r => (r.date == d) && (r.demandId == m)) = [⟨i0, m, d⟩] ∧
        (writeBatch ev mode startTs members earliest latest batch result db).data.filter
          (fun r => r.tsId == i0) = []) ∧
    (latest m ≤ d →
      (writeBatch ev mode startTs members earliest latest batch result db).ts.filter
        (fun r => (r.date == d) && (r.demandId == m)) = []) := by
  have hwb : writeBatch ev mode startTs members earliest latest batch result db
      = (members.foldl (writeMember ev mode startTs earliest latest batch)
          (⟨db, (db.ts.map (fun r => r.id)).foldl max 0, none, result⟩ :
            WriterState)).db := rfl
  rw [hwb]
  have hstub0 : StubInv m d
      (⟨db, (db.ts.map (fun r => r.id)).foldl max 0, none, result⟩ : WriterState) := by
    refine ⟨hkey, ?_, hid, hdataok, hres⟩
    intro r hr
    exact foldl_max_le_mem _ 0 r.id (List.mem_map.mpr ⟨r, hr, rfl⟩)
  obtain ⟨l1, l2, hmsplit⟩ := List.append_of_mem hm
  obtain ⟨b1, b2, hbsplit⟩ := List.append_of_mem hd
  subst hmsplit
  subst hbsplit
  obtain ⟨hml1, hml2⟩ := nodup_split_parts hmnd
  obtain ⟨hdb1, hdb2⟩ := nodup_split_parts hbnd
  rw [List.foldl_append, List.foldl_cons]
  set s0 : WriterState :=
    ⟨db, (db.ts.map (fun r => r.id)).foldl max 0, none, result⟩ with hs0
  have hstub1 := foldl_pres_mem (StubInv m d)
    (writeMember ev mode startTs earliest latest (b1 ++ d :: b2)) l1
    (fun s2 m1 hm1 hp => writeMember_stub_frame ev mode startTs earliest latest
      (b1 ++ d :: b2) (fun he => hml1 (by rw [he] at hm1; exact hm1)) s2 hp) s0 hstub0
  set s1 := l1.foldl (writeMember ev mode startTs earliest latest (b1 ++ d :: b2)) s0
    with hs1
  have hmemd : d ∈ b1 ++ d :: b2 := by simp
  have hhead : (b1 ++ d :: b2).headD 0 ≤ d := sorted_headD_le hsorted hmemd
  have hgetl : d ≤ (b1 ++ d :: b2).getLastD 0 := sorted_le_getLastD hsorted hmemd
  constructor
  · intro hin
    have hA2 : (decide (latest m < (b1 ++ d :: b2).headD 0)) = false :=
      decide_eq_false (by omega)
    have hB2 : (decide ((b1 ++ d :: b2).getLastD 0 < earliest m)) = false :=
      decide_eq_false (by omega)
    have hC2 : (latest m == startTs) = false := by
      cases hq : (latest m == startTs) with
      | false => rfl
      | true =>
        have := beq_iff_eq.mp hq
        omega
    have hguard : (s1.result.isEmpty &&
        (decide (latest m < (b1 ++ d :: b2).headD 0) ||
          decide ((b1 ++ d :: b2).getLastD 0 < earliest m) ||
          (latest m == startTs))) = false := by
      rw [hA2, hB2, hC2]
      exact Bool.and_false _
    have hwm : writeMember ev mode startTs earliest latest (b1 ++ d :: b2) s1 m
        = (b1 ++ d :: b2).foldl (writeDate ev mode m (earliest m) (latest m)) s1 := by
      unfold writeMember
      rw [hguard]
      rfl
    rw [hwm, List.foldl_append, List.foldl_cons]
    have hstub2 := foldl_pres_mem (StubInv m d)
      (writeDate ev mode m (earliest m) (latest m)) b1
      (fun s2 d0 hd0 hp => writeDate_stub_frame ev mode m (earliest m) (latest m) s2 d0 hp
        (fun hq => hdb1 (by rw [hq.2] at hd0; exact hd0))) s1 hstub1
    set s2 := b1.foldl (writeDate ev mode m (earliest m) (latest m)) s1 with hs2
    obtain ⟨hinv3, hkf3, hdf3⟩ :=
      writeDate_at_stub ev mode m d (earliest m) (latest m) s2 hstub2 hin.1 hin.2
    have hB3 : OverwriteInvB (s2.lastTimeSeriesId + 1) m d 0
        [⟨s2.lastTimeSeriesId + 1, m, d⟩]
        (writeDate ev mode m (earliest m) (latest m) s2 d) := by
      refine ⟨hinv3, ?_, hkf3⟩
      rw [hdf3]
      rfl
    have hB4 := foldl_pres_mem
      (OverwriteInvB (s2.lastTimeSeriesId + 1) m d 0 [⟨s2.lastTimeSeriesId + 1, m, d⟩])
      (writeDate ev mode m (earliest m) (latest m)) b2
      (fun s3 d0 hd0 hp => writeDate_invB ev mode m (earliest m) (latest m) d0
        (fun hq => hdb2 (by rw [hq.2] at hd0; exact hd0)) s3 hp) _ hB3
    have hB5 := foldl_pres_mem
      (OverwriteInvB (s2.lastTimeSeriesId + 1) m d 0 [⟨s2.lastTimeSeriesId + 1, m, d⟩])
      (writeMember ev mode startTs earliest latest (b1 ++ d :: b2)) l2
      (fun s3 m1 hm1 hp => writeMember_invB ev mode startTs earliest latest
        (b1 ++ d :: b2) (fun he => hml2 (by rw [he] at hm1; exact hm1)) s3 hp) _ hB4
    exact ⟨s2.lastTimeSeriesId + 1, hB5.2.2, List.length_eq_zero.mp hB5.2.1⟩
  · intro hbeyond
    have hout : ¬(earliest m < d ∧ d < latest m) := fun hq => by omega
    have hstub3 := writeMember_stub_beyond ev mode startTs earliest latest b1 b2
      hdb1 hdb2 hout s1 hstub1
    have hstub4 := foldl_pres_mem (StubInv m d)
      (writeMember ev mode startTs earliest latest (b1 ++ d :: b2)) l2
      (fun s3 m1 hm1 hp => writeMember_stub_frame ev mode startTs earliest latest
        (b1 ++ d :: b2) (fun he => hml2 (by rw [he] at hm1; exact hm1)) s3 hp) _ hstub3
    exact hstub4.1

theorem claim3_gap_stub_witness :
    (∃ i0,
      (writeBatch [] 3 1 [1] (fun _ => 1) (fun _ => 5) [3] []
          ⟨[⟨1, 1, 1⟩, ⟨5, 1, 5⟩], [], [], []⟩).ts.filter
        (fun r => (r.date == 3) && (r.demandId == 1)) = [⟨i0, 1, 3⟩] ∧
      (writeBatch [] 3 1 [1] (fun _ => 1) (fun _ => 5) [3] []
          ⟨[⟨1, 1, 1⟩, ⟨5, 1, 5⟩], [], [], []⟩).data.filter
        (fun r => r.tsId == i0) = []) ∧
    (writeBatch [] 3 1 [1] (fun _ => 1) (fun _ => 5) [9] []
        ⟨[⟨1, 1, 1⟩, ⟨5, 1, 5⟩], [], [], []⟩).ts.filter
      (fun r => (r.date == 9) && (r.demandId == 1)) = [] :=
  ⟨(@claim3_gap_stub [] 3 1 [1] (fun _ => 1) (fun _ => 5) [3] []
      ⟨[⟨1, 1, 1⟩, ⟨5, 1, 5⟩], [], [], []⟩ 1 3
      (by decide) (by decide) (by decide) (by decide) (by decide) (by decide)
      (by decide) (by decide) (by decide) (by decide)).1 ⟨by decide, by decide⟩,
   (@claim3_gap_stub [] 3 1 [1] (fun _ => 1) (fun _ => 5) [9] []
      ⟨[⟨1, 1, 1⟩, ⟨5, 1, 5⟩], [], [], []⟩ 1 9
      (by decide) (by decide) (by decide) (by decide) (by decide) (by decide)
      (by decide) (by decide) (by decide) (by decide)).2 (by decide)⟩

end GEEDaR
